import Mathlib

/-!
Verification of the Cylc UI tree-population core
(`src/components/cylc/tree/index.js`).

The JavaScript is shallowly embedded: JS values are modelled by `Val`
(primitives plus references), JS objects and arrays live in an explicit
`Heap` (a list of objects, addressed by position, allocation appends),
and each factory function of the source becomes a Lean function from a
heap and argument values to an updated heap and a result value.
Property reads, property writes (including JS "set or append" semantics
for records) and JS truthiness follow the JavaScript semantics the
source relies on.  `populateTreeFromGraphQLData` returns, besides the
final heap, the exact ordered trace of Tree Store insertion calls
(`setWorkflow`, `addCyclePoint`, `addFamilyProxy`, `addTaskProxy`,
`addJob`) that the source performs, and raising is modelled by
`Except.error`.  Arguments reaching property assignment or `for...of`
iteration are assumed to be object references / arrays where the
theorems say so, matching the GraphQL data the UI actually supplies.
-/

/-- An address into the heap. -/
abbrev Addr := Nat

/-- A JavaScript value: primitives, or a reference to a heap object. -/
inductive Val where
  | undefined : Val
  | null : Val
  | bool : Bool → Val
  | num : Int → Val
  | str : String → Val
  | ref : Addr → Val
deriving DecidableEq, Repr

/-- A heap object: a plain record (ordered field list) or an array. -/
inductive Obj where
  | record : List (String × Val) → Obj
  | array : List Val → Obj
deriving DecidableEq, Repr

/-- The JS heap: objects addressed by their position in the list. -/
structure Heap where
  objs : List Obj
deriving DecidableEq, Repr

/-- Dereference an address. -/
def Heap.lookup (h : Heap) (a : Addr) : Option Obj :=
  h.objs.get? a

/-- Allocate a fresh object, returning the new heap and its address. -/
def Heap.alloc (h : Heap) (o : Obj) : Heap × Addr :=
  (⟨h.objs ++ [o]⟩, h.objs.length)

/-- Overwrite the object at an address (used only for property writes). -/
def Heap.setObj (h : Heap) (a : Addr) (o : Obj) : Heap :=
  ⟨h.objs.set a o⟩

/-- JS truthiness of a value (objects are always truthy). -/
def truthy : Val → Bool
  | .undefined => false
  | .null => false
  | .bool b => b
  | .num n => n != 0
  | .str s => s != ""
  | .ref _ => true

/-- Field lookup in a record's ordered field list (first match wins, as
in a JS object no key is ever duplicated; writes below keep it that way). -/
def lookupField : List (String × Val) → String → Option Val
  | [], _ => none
  | (k, v) :: fs, f => if k = f then some v else lookupField fs f

/-- Read a property: `undefined` on primitives, missing fields and arrays. -/
def Heap.getField (h : Heap) (v : Val) (f : String) : Val :=
  match v with
  | .ref a =>
    match h.lookup a with
    | some (.record fs) => (lookupField fs f).getD .undefined
    | _ => .undefined
  | _ => .undefined

/-- JS property write on a record's field list: update the existing field
in place, otherwise append it. -/
def setFieldList (fs : List (String × Val)) (f : String) (v : Val) :
    List (String × Val) :=
  if fs.any (fun p => p.1 = f) then
    fs.map (fun p => if p.1 = f then (f, v) else p)
  else
    fs ++ [(f, v)]

/-- Write a property of a record object (no-op on anything else; the
theorems below only ever apply it to record references, as the source's
callers do). -/
def Heap.setField (h : Heap) (v : Val) (f : String) (x : Val) : Heap :=
  match v with
  | .ref a =>
    match h.lookup a with
    | some (.record fs) => h.setObj a (.record (setFieldList fs f x))
    | _ => h
  | _ => h

/-- The elements of an array value (empty for anything else). -/
def Heap.elems (h : Heap) (v : Val) : List Val :=
  match v with
  | .ref a =>
    match h.lookup a with
    | some (.array xs) => xs
    | _ => []
  | _ => []

/-- `Array.isArray`. -/
def isArray (h : Heap) (v : Val) : Bool :=
  match v with
  | .ref a =>
    match h.lookup a with
    | some (.array _) => true
    | _ => false
  | _ => false

/-- JS string coercion, as used by the template literal in `createJobNode`
(the source only ever interpolates string job ids). -/
def jsToString : Val → String
  | .undefined => "undefined"
  | .null => "null"
  | .bool b => if b then "true" else "false"
  | .num n => toString n
  | .str s => s
  | .ref _ => "[object Object]"

/-- JS `&&` on (already evaluated, effect-free) operands: the first falsy
operand, otherwise the second operand. -/
def jsAnd (a b : Val) : Val :=
  if truthy a then b else a

/-- The properties displayed on each job-detail leaf
(`JOB_DETAIL_NODE_PROPERTIES` in the source): title and property name. -/
def JOB_DETAIL_NODE_PROPERTIES : List (String × String) :=
  [("host id", "host"),
   ("job id", "batchSysJobId"),
   ("batch sys", "batchSysName"),
   ("submit time", "submittedTime"),
   ("start time", "startedTime"),
   ("finish time", "finishedTime"),
   ("latest message", "latestMessage")]

/-- `TREE_ITEM_SIZE`: the height of each tree item. -/
def TREE_ITEM_SIZE : Int := 32

/-- `createWorkflowNode(workflow)`: id, type `workflow`, the workflow
itself (by reference) as `node`, fresh empty `children`; no `size` or
`state` field. -/
def createWorkflowNode (h : Heap) (workflow : Val) : Heap × Val :=
  let (h1, cAddr) := h.alloc (.array [])
  let (h2, a) := h1.alloc (.record
    [("id", h.getField workflow "id"),
     ("type", .str "workflow"),
     ("node", workflow),
     ("children", .ref cAddr)])
  (h2, .ref a)

/-- `createCyclePointNode(familyProxy)`: id is the record's `cyclePoint`;
`node` is a freshly built `{id, name}` object (not the input record);
`state.open = true`. -/
def createCyclePointNode (h : Heap) (familyProxy : Val) : Heap × Val :=
  let cp := h.getField familyProxy "cyclePoint"
  let (h1, nAddr) := h.alloc (.record [("id", cp), ("name", cp)])
  let (h2, cAddr) := h1.alloc (.array [])
  let (h3, sAddr) := h2.alloc (.record [("open", .bool true)])
  let (h4, a) := h3.alloc (.record
    [("id", cp),
     ("type", .str "cyclepoint"),
     ("node", .ref nAddr),
     ("children", .ref cAddr),
     ("size", .num TREE_ITEM_SIZE),
     ("state", .ref sAddr)])
  (h4, .ref a)

/-- `createFamilyProxyNode(familyProxy)`: wraps the record by reference;
`state.open = true`. -/
def createFamilyProxyNode (h : Heap) (familyProxy : Val) : Heap × Val :=
  let (h1, cAddr) := h.alloc (.array [])
  let (h2, sAddr) := h1.alloc (.record [("open", .bool true)])
  let (h3, a) := h2.alloc (.record
    [("id", h.getField familyProxy "id"),
     ("type", .str "family-proxy"),
     ("node", familyProxy),
     ("children", .ref cAddr),
     ("size", .num TREE_ITEM_SIZE),
     ("state", .ref sAddr)])
  (h3, .ref a)

/-- `createTaskProxyNode(taskProxy)`: first defaults a falsy `state` on
the shared record to `''` (ghost nodes), then wraps the record by
reference; `state.open = false`. -/
def createTaskProxyNode (h : Heap) (taskProxy : Val) : Heap × Val :=
  let h0 := if truthy (h.getField taskProxy "state") then h
            else h.setField taskProxy "state" (.str "")
  let (h1, cAddr) := h0.alloc (.array [])
  let (h2, sAddr) := h1.alloc (.record [("open", .bool false)])
  let (h3, a) := h2.alloc (.record
    [("id", h0.getField taskProxy "id"),
     ("type", .str "task-proxy"),
     ("node", taskProxy),
     ("children", .ref cAddr),
     ("size", .num TREE_ITEM_SIZE),
     ("state", .ref sAddr)])
  (h3, .ref a)

/-- `createJobNode(job, latestMessage = '')`: builds the `job-details`
leaf (id `` `${job.id}-details` ``, size `TREE_ITEM_SIZE *
JOB_DETAIL_NODE_PROPERTIES.length`, `state.open = false`) and the job
node itself with the details leaf as its only child, `state.open =
false`, and the caller-supplied `latestMessage` (JS default parameter:
an `undefined` argument becomes `''`). -/
def createJobNode (h : Heap) (job : Val) (lm : Val) : Heap × Val :=
  let latestMessage := if lm = .undefined then .str "" else lm
  let detailsId := jsToString (h.getField job "id") ++ "-details"
  let (h1, dcAddr) := h.alloc (.array [])
  let (h2, dsAddr) := h1.alloc (.record [("open", .bool false)])
  let (h3, dAddr) := h2.alloc (.record
    [("id", .str detailsId),
     ("type", .str "job-details"),
     ("node", job),
     ("children", .ref dcAddr),
     ("size", .num (TREE_ITEM_SIZE * JOB_DETAIL_NODE_PROPERTIES.length)),
     ("state", .ref dsAddr)])
  let (h4, cAddr) := h3.alloc (.array [.ref dAddr])
  let (h5, sAddr) := h4.alloc (.record [("open", .bool false)])
  let (h6, a) := h5.alloc (.record
    [("id", h.getField job "id"),
     ("type", .str "job"),
     ("node", job),
     ("latestMessage", latestMessage),
     ("children", .ref cAddr),
     ("size", .num TREE_ITEM_SIZE),
     ("state", .ref sAddr)])
  (h6, .ref a)

/-- `containsTreeData(workflow)`: the source's chain of `&&`, returning
whatever JS value the chain evaluates to (`true` exactly when the record
is non-null, non-undefined and its `cyclePoints`, `familyProxies` and
`taskProxies` are arrays). -/
def containsTreeData (h : Heap) (workflow : Val) : Val :=
  jsAnd (.bool (workflow != .undefined))
    (jsAnd (.bool (workflow != .null))
      (jsAnd (h.getField workflow "cyclePoints")
        (jsAnd (.bool (isArray h (h.getField workflow "cyclePoints")))
          (jsAnd (h.getField workflow "familyProxies")
            (jsAnd (.bool (isArray h (h.getField workflow "familyProxies")))
              (jsAnd (h.getField workflow "taskProxies")
                (.bool (isArray h (h.getField workflow "taskProxies")))))))))

/-- One Tree Store insertion call made by the population routine,
carrying the inserted node. -/
inductive TreeOp where
  | setWorkflow : Val → TreeOp
  | addCyclePoint : Val → TreeOp
  | addFamilyProxy : Val → TreeOp
  | addTaskProxy : Val → TreeOp
  | addJob : Val → TreeOp
deriving DecidableEq, Repr

/-- The node a Tree Store call inserts. -/
def TreeOp.node : TreeOp → Val
  | .setWorkflow n => n
  | .addCyclePoint n => n
  | .addFamilyProxy n => n
  | .addTaskProxy n => n
  | .addJob n => n

/-- Which of the five Tree Store operations a call is. -/
inductive OpKind where
  | setWorkflow | addCyclePoint | addFamilyProxy | addTaskProxy | addJob
deriving DecidableEq, Repr

/-- Project the kind of a Tree Store call. -/
def TreeOp.kind : TreeOp → OpKind
  | .setWorkflow _ => .setWorkflow
  | .addCyclePoint _ => .addCyclePoint
  | .addFamilyProxy _ => .addFamilyProxy
  | .addTaskProxy _ => .addTaskProxy
  | .addJob _ => .addJob

/-- The inner `for (const job of taskProxy.jobs)` loop of
`populateTreeFromGraphQLData`. -/
def processJobs (h : Heap) (lm : Val) : List Val → Heap × List TreeOp
  | [] => (h, [])
  | j :: js =>
    let r := createJobNode h j lm
    let rest := processJobs r.1 lm js
    (rest.1, .addJob r.2 :: rest.2)

/-- The `for (const taskProxy of workflow.taskProxies)` loop of
`populateTreeFromGraphQLData`: build and insert each task-proxy node,
then, when the record's `jobs` is truthy, build and insert its job
nodes, passing the task proxy's `latestMessage`. -/
def processTaskProxies (h : Heap) : List Val → Heap × List TreeOp
  | [] => (h, [])
  | tp :: tps =>
    let r := createTaskProxyNode h tp
    let jv := r.1.getField tp "jobs"
    let rj :=
      if truthy jv then processJobs r.1 (r.1.getField tp "latestMessage") (r.1.elems jv)
      else (r.1, [])
    let rest := processTaskProxies rj.1 tps
    (rest.1, .addTaskProxy r.2 :: (rj.2 ++ rest.2))

/-- The `for (const cyclePoint of workflow.cyclePoints)` loop. -/
def processCyclePoints (h : Heap) : List Val → Heap × List TreeOp
  | [] => (h, [])
  | cp :: cps =>
    let r := createCyclePointNode h cp
    let rest := processCyclePoints r.1 cps
    (rest.1, .addCyclePoint r.2 :: rest.2)

/-- The `for (const familyProxy of workflow.familyProxies)` loop. -/
def processFamilyProxies (h : Heap) : List Val → Heap × List TreeOp
  | [] => (h, [])
  | fp :: fps =>
    let r := createFamilyProxyNode h fp
    let rest := processFamilyProxies r.1 fps
    (rest.1, .addFamilyProxy r.2 :: rest.2)

/-- `populateTreeFromGraphQLData(tree, workflow)`: validate, then insert
the workflow root, all cycle points, all family proxies, and each task
proxy followed by its jobs, in input order.  Returns the final heap and
the ordered trace of Tree Store insertion calls; raising is
`Except.error` and performs no insertion. -/
def populateTreeFromGraphQLData (h : Heap) (tree workflow : Val) :
    Except String (Heap × List TreeOp) :=
  if !truthy tree || !truthy workflow || !truthy (containsTreeData h workflow) then
    .error "You must provide valid data to populate the tree!"
  else
    let r0 := createWorkflowNode h workflow
    let r1 := processCyclePoints r0.1 (r0.1.elems (r0.1.getField workflow "cyclePoints"))
    let r2 := processFamilyProxies r1.1 (r1.1.elems (r1.1.getField workflow "familyProxies"))
    let r3 := processTaskProxies r2.1 (r2.1.elems (r2.1.getField workflow "taskProxies"))
    .ok (r3.1, .setWorkflow r0.2 :: (r1.2 ++ (r2.2 ++ r3.2)))

/-! ## Heap infrastructure lemmas -/

theorem Heap.lookup_lt_length (h : Heap) (a : Addr) (x : Obj)
    (hx : h.lookup a = some x) : a < h.objs.length := by
  by_contra hle
  push_neg at hle
  rw [Heap.lookup, List.get?_eq_none.mpr hle] at hx
  exact Option.noConfusion hx

theorem Heap.lookup_alloc_new (h : Heap) (o : Obj) :
    (h.alloc o).1.lookup (h.alloc o).2 = some o := by
  simp [Heap.alloc, Heap.lookup, List.get?_eq_getElem?, List.getElem?_append_right]

theorem Heap.lookup_alloc_old (h : Heap) (o : Obj) (a : Addr) (x : Obj)
    (hx : h.lookup a = some x) : (h.alloc o).1.lookup a = some x := by
  have hlt := h.lookup_lt_length a x hx
  simpa [Heap.alloc, Heap.lookup, List.get?_eq_getElem?,
    List.getElem?_append_left hlt] using hx

theorem Heap.lookup_setObj_ne (h : Heap) (a b : Addr) (o : Obj) (hne : b ≠ a) :
    (h.setObj a o).lookup b = h.lookup b := by
  simp [Heap.setObj, Heap.lookup, List.get?_eq_getElem?,
    List.getElem?_set_ne (fun hab => hne hab.symm)]

theorem Heap.lookup_setObj_self (h : Heap) (a : Addr) (o x : Obj)
    (hx : h.lookup a = some x) : (h.setObj a o).lookup a = some o := by
  have hlt := h.lookup_lt_length a x hx
  simp [Heap.setObj, Heap.lookup, List.get?_eq_getElem?,
    List.getElem?_set_eq_of_lt o hlt]


theorem lookupField_nil (f : String) : lookupField [] f = none := rfl

theorem lookupField_cons (k : String) (x : Val) (fs : List (String × Val))
    (f : String) :
    lookupField ((k, x) :: fs) f = if k = f then some x else lookupField fs f := rfl

theorem lookupField_map_set_ne (fs : List (String × Val)) (f g : String)
    (v : Val) (hne : g ≠ f) :
    lookupField (fs.map (fun p => if p.1 = f then (f, v) else p)) g =
      lookupField fs g := by
  induction fs with
  | nil => rfl
  | cons p fs ih =>
    obtain ⟨k, x⟩ := p
    simp only [List.map_cons]
    by_cases hk : k = f
    · subst hk
      have h2 : ¬(k = g) := fun h => hne h.symm
      rw [if_pos (show (k, x).1 = k from rfl), lookupField_cons, lookupField_cons,
        ih, if_neg h2, if_neg h2]
    · rw [if_neg (show ¬((k, x).1 = f) from hk), lookupField_cons, lookupField_cons, ih]

theorem lookupField_append_ne (fs : List (String × Val)) (f g : String)
    (v : Val) (hne : g ≠ f) :
    lookupField (fs ++ [(f, v)]) g = lookupField fs g := by
  induction fs with
  | nil =>
    rw [List.nil_append, lookupField_cons, lookupField_nil,
      if_neg (fun h => hne h.symm)]
  | cons p fs ih =>
    obtain ⟨k, x⟩ := p
    rw [List.cons_append, lookupField_cons, lookupField_cons, ih]

theorem setFieldList_lookup_ne (fs : List (String × Val)) (f g : String)
    (v : Val) (hne : g ≠ f) :
    lookupField (setFieldList fs f v) g = lookupField fs g := by
  unfold setFieldList
  split
  · exact lookupField_map_set_ne fs f g v hne
  · exact lookupField_append_ne fs f g v hne

theorem setFieldList_lookup_self (fs : List (String × Val)) (f : String)
    (v : Val) : lookupField (setFieldList fs f v) f = some v := by
  unfold setFieldList
  split
  · rename_i hany
    induction fs with
    | nil => simp at hany
    | cons p fs ih =>
      obtain ⟨k, x⟩ := p
      simp only [List.map_cons]
      by_cases hk : k = f
      · subst hk
        rw [if_pos (show (k, x).1 = k from rfl), lookupField_cons, if_pos rfl]
      · simp only [List.any_cons, Bool.or_eq_true_iff] at hany
        have htail : fs.any (fun p => p.1 = f) = true := by
          rcases hany with hh | ht
          · exact absurd (by simpa using hh) hk
          · exact ht
        rw [if_neg (show ¬((k, x).1 = f) from hk), lookupField_cons, if_neg hk]
        exact ih htail
  · rename_i hany
    induction fs with
    | nil => rw [List.nil_append, lookupField_cons, if_pos rfl]
    | cons p fs ih =>
      obtain ⟨k, x⟩ := p
      simp only [List.any_cons, Bool.or_eq_true_iff, not_or] at hany
      have hk : ¬(k = f) := by
        intro hkf
        exact hany.1 (by simpa using hkf)
      rw [List.cons_append, lookupField_cons, if_neg hk]
      exact ih (by simp [hany.2])


theorem Heap.getField_setField_ne (h : Heap) (v w : Val) (f g : String)
    (x : Val) (hne : g ≠ f) :
    (h.setField v f x).getField w g = h.getField w g := by
  unfold Heap.setField
  cases v with
  | ref a =>
    cases hl : h.lookup a with
    | none => simp [hl]
    | some o =>
      cases o with
      | array xs => simp [hl]
      | record fs =>
        simp only [hl]
        cases w with
        | ref b =>
          by_cases hba : b = a
          · subst hba
            simp only [Heap.getField,
              Heap.lookup_setObj_self h b (Obj.record (setFieldList fs f x)) (Obj.record fs) hl,
              hl, setFieldList_lookup_ne fs f g x hne]
          · simp only [Heap.getField, Heap.lookup_setObj_ne h a b _ hba]
        | undefined => rfl
        | null => rfl
        | bool _ => rfl
        | num _ => rfl
        | str _ => rfl
  | undefined => rfl
  | null => rfl
  | bool _ => rfl
  | num _ => rfl
  | str _ => rfl

theorem Heap.getField_setField_self (h : Heap) (a : Addr)
    (fs : List (String × Val)) (f : String) (x : Val)
    (hl : h.lookup a = some (.record fs)) :
    (h.setField (.ref a) f x).getField (.ref a) f = x := by
  unfold Heap.setField
  simp only [hl]
  simp only [Heap.getField,
    Heap.lookup_setObj_self h a (Obj.record (setFieldList fs f x)) (Obj.record fs) hl,
    setFieldList_lookup_self fs f x, Option.getD_some]

theorem Heap.lookup_setField_array (h : Heap) (v : Val) (f : String)
    (x : Val) (a : Addr) (xs : List Val)
    (hl : h.lookup a = some (.array xs)) :
    (h.setField v f x).lookup a = some (.array xs) := by
  unfold Heap.setField
  cases v with
  | ref b =>
    cases hb : h.lookup b with
    | none => simpa [hb] using hl
    | some o =>
      cases o with
      | array ys => simpa [hb] using hl
      | record fs =>
        simp only [hb]
        have hba : a ≠ b := by
          intro hab
          rw [hab, hb] at hl
          exact Obj.noConfusion (Option.some.inj hl)
        rw [Heap.lookup_setObj_ne h b a _ hba]
        exact hl
  | undefined => exact hl
  | null => exact hl
  | bool _ => exact hl
  | num _ => exact hl
  | str _ => exact hl

theorem Heap.lookup_setField_record (h : Heap) (v : Val) (f : String)
    (x : Val) (a : Addr) (fs : List (String × Val))
    (hl : h.lookup a = some (.record fs)) :
    ∃ fs', (h.setField v f x).lookup a = some (.record fs') ∧
      ∀ g, g ≠ f → lookupField fs' g = lookupField fs g := by
  unfold Heap.setField
  cases v with
  | ref b =>
    cases hb : h.lookup b with
    | none => exact ⟨fs, by simpa [hb] using hl, fun g _ => rfl⟩
    | some o =>
      cases o with
      | array ys => exact ⟨fs, by simpa [hb] using hl, fun g _ => rfl⟩
      | record gs =>
        simp only [hb]
        by_cases hba : a = b
        · have hgf : gs = fs := by
            rw [hba, hb] at hl
            exact Obj.record.inj (Option.some.inj hl)
          subst hgf
          refine ⟨setFieldList gs f x, ?_,
            fun g hg => setFieldList_lookup_ne gs f g x hg⟩
          rw [hba]
          exact Heap.lookup_setObj_self h b _ _ hb
        · rw [Heap.lookup_setObj_ne h b a _ hba]
          exact ⟨fs, hl, fun g _ => rfl⟩
  | undefined => exact ⟨fs, hl, fun g _ => rfl⟩
  | null => exact ⟨fs, hl, fun g _ => rfl⟩
  | bool _ => exact ⟨fs, hl, fun g _ => rfl⟩
  | num _ => exact ⟨fs, hl, fun g _ => rfl⟩
  | str _ => exact ⟨fs, hl, fun g _ => rfl⟩

/-- Position of objects after appending to a heap's object list. -/
theorem Heap.lookup_append_add (objs L : List Obj) (i : Nat) :
    (Heap.mk (objs ++ L)).lookup (objs.length + i) = L.get? i := by
  simp [Heap.lookup, List.get?_eq_getElem?, List.getElem?_append_right]

theorem Heap.lookup_append_self (objs : List Obj) (o : Obj) (L : List Obj) :
    (Heap.mk (objs ++ o :: L)).lookup objs.length = some o := by
  simpa using Heap.lookup_append_add objs (o :: L) 0

theorem Heap.lookup_append_left (objs L : List Obj) (a : Addr) (o : Obj)
    (ho : (Heap.mk objs).lookup a = some o) :
    (Heap.mk (objs ++ L)).lookup a = some o := by
  have hlt := (Heap.mk objs).lookup_lt_length a o ho
  simpa [Heap.lookup, List.get?_eq_getElem?, List.getElem?_append_left hlt]
    using ho

/-- `h'` keeps every object of `h` unchanged (it only allocates). -/
def Extends (h h' : Heap) : Prop :=
  ∀ a o, h.lookup a = some o → h'.lookup a = some o

/-- `h'` keeps the arrays of `h` unchanged and the records of `h`
unchanged except possibly at the field `state`. -/
def Preserves (h h' : Heap) : Prop :=
  (∀ a xs, h.lookup a = some (.array xs) → h'.lookup a = some (.array xs)) ∧
  (∀ a fs, h.lookup a = some (.record fs) →
    ∃ fs', h'.lookup a = some (.record fs') ∧
      ∀ g, g ≠ "state" → lookupField fs' g = lookupField fs g)

theorem Extends.refl_ext (h : Heap) : Extends h h := fun _ _ ho => ho

theorem Extends.trans_ext {h1 h2 h3 : Heap} (e1 : Extends h1 h2)
    (e2 : Extends h2 h3) : Extends h1 h3 :=
  fun a o ho => e2 a o (e1 a o ho)

theorem Extends.alloc (h : Heap) (o : Obj) : Extends h (h.alloc o).1 :=
  fun a x hx => h.lookup_alloc_old o a x hx

theorem Extends.toPreserves {h h' : Heap} (e : Extends h h') : Preserves h h' :=
  ⟨fun a _xs ha => e a _ ha, fun a fs ha => ⟨fs, e a _ ha, fun _ _ => rfl⟩⟩

theorem Preserves.refl_pres (h : Heap) : Preserves h h :=
  (Extends.refl_ext h).toPreserves

theorem Preserves.trans_pres {h1 h2 h3 : Heap} (p1 : Preserves h1 h2)
    (p2 : Preserves h2 h3) : Preserves h1 h3 := by
  constructor
  · intro a xs ha
    exact p2.1 a xs (p1.1 a xs ha)
  · intro a fs ha
    obtain ⟨fs', h2l, hfs'⟩ := p1.2 a fs ha
    obtain ⟨fs'', h3l, hfs''⟩ := p2.2 a fs' h2l
    exact ⟨fs'', h3l, fun g hg => (hfs'' g hg).trans (hfs' g hg)⟩

/-- The `state`-defaulting step of `createTaskProxyNode`. -/
theorem Preserves.setState (h : Heap) (tp : Val) :
    Preserves h (h.setField tp "state" (.str "")) := by
  constructor
  · intro a xs ha
    exact Heap.lookup_setField_array h tp "state" (.str "") a xs ha
  · intro a fs ha
    exact Heap.lookup_setField_record h tp "state" (.str "") a fs ha

theorem createWorkflowNode_extends (h : Heap) (w : Val) :
    Extends h (createWorkflowNode h w).1 := by
  unfold createWorkflowNode
  exact (Extends.alloc _ _).trans_ext (Extends.alloc _ _)

theorem createCyclePointNode_extends (h : Heap) (v : Val) :
    Extends h (createCyclePointNode h v).1 := by
  unfold createCyclePointNode
  exact ((Extends.alloc _ _).trans_ext (Extends.alloc _ _)).trans_ext
    ((Extends.alloc _ _).trans_ext (Extends.alloc _ _))

theorem createFamilyProxyNode_extends (h : Heap) (v : Val) :
    Extends h (createFamilyProxyNode h v).1 := by
  unfold createFamilyProxyNode
  exact ((Extends.alloc _ _).trans_ext (Extends.alloc _ _)).trans_ext (Extends.alloc _ _)

theorem createJobNode_extends (h : Heap) (j lm : Val) :
    Extends h (createJobNode h j lm).1 := by
  unfold createJobNode
  exact (((Extends.alloc _ _).trans_ext (Extends.alloc _ _)).trans_ext
    ((Extends.alloc _ _).trans_ext (Extends.alloc _ _))).trans_ext
    ((Extends.alloc _ _).trans_ext (Extends.alloc _ _))

theorem createTaskProxyNode_preserves (h : Heap) (tp : Val) :
    Preserves h (createTaskProxyNode h tp).1 := by
  unfold createTaskProxyNode
  by_cases hs : truthy (h.getField tp "state")
  · simp only [hs, if_pos]
    exact ((Extends.alloc _ _).trans_ext ((Extends.alloc _ _).trans_ext
      (Extends.alloc _ _))).toPreserves
  · simp only [hs, if_neg, Bool.false_eq_true, not_false_iff]
    exact (Preserves.setState h tp).trans_pres
      ((Extends.alloc _ _).trans_ext ((Extends.alloc _ _).trans_ext
        (Extends.alloc _ _))).toPreserves

theorem processCyclePoints_extends (h : Heap) (l : List Val) :
    Extends h (processCyclePoints h l).1 := by
  induction l generalizing h with
  | nil => exact Extends.refl_ext h
  | cons cp cps ih =>
    unfold processCyclePoints
    exact (createCyclePointNode_extends h cp).trans_ext (ih _)

theorem processFamilyProxies_extends (h : Heap) (l : List Val) :
    Extends h (processFamilyProxies h l).1 := by
  induction l generalizing h with
  | nil => exact Extends.refl_ext h
  | cons fp fps ih =>
    unfold processFamilyProxies
    exact (createFamilyProxyNode_extends h fp).trans_ext (ih _)

theorem processJobs_extends (h : Heap) (lm : Val) (l : List Val) :
    Extends h (processJobs h lm l).1 := by
  induction l generalizing h with
  | nil => exact Extends.refl_ext h
  | cons j js ih =>
    unfold processJobs
    exact (createJobNode_extends h j lm).trans_ext (ih _)

theorem processTaskProxies_preserves (h : Heap) (l : List Val) :
    Preserves h (processTaskProxies h l).1 := by
  induction l generalizing h with
  | nil => exact Preserves.refl_pres h
  | cons tp tps ih =>
    unfold processTaskProxies
    refine (createTaskProxyNode_preserves h tp).trans_pres ?_
    set h1 := (createTaskProxyNode h tp).1 with hh1
    by_cases hj : truthy (h1.getField tp "jobs")
    · simp only [hj, if_pos]
      exact ((processJobs_extends h1 _ _).toPreserves).trans_pres (ih _)
    · simp only [hj, if_neg, Bool.false_eq_true, not_false_iff]
      exact ih _

/-- A value that does not dangle: if it is a reference, the heap has an
object at that address. -/
def ValidVal (h : Heap) (v : Val) : Prop :=
  ∀ a, v = .ref a → ∃ o, h.lookup a = some o

theorem ValidVal.of_lookup (h : Heap) (a : Addr) (o : Obj)
    (ho : h.lookup a = some o) : ValidVal h (.ref a) := by
  intro b hb
  cases hb
  exact ⟨o, ho⟩

theorem ValidVal.not_ref (h : Heap) (v : Val) (hv : ∀ a, v ≠ .ref a) :
    ValidVal h v := fun a ha => absurd ha (hv a)

theorem Preserves.validVal {h h' : Heap} (p : Preserves h h') (v : Val)
    (hv : ValidVal h v) : ValidVal h' v := by
  intro a ha
  obtain ⟨o, ho⟩ := hv a ha
  cases o with
  | record fs =>
    obtain ⟨fs', hl, _⟩ := p.2 a fs ho
    exact ⟨.record fs', hl⟩
  | array xs => exact ⟨.array xs, p.1 a xs ho⟩

theorem Preserves.getField_stable {h h' : Heap} (p : Preserves h h')
    (v : Val) (hv : ValidVal h v) (g : String) (hg : g ≠ "state") :
    h'.getField v g = h.getField v g := by
  cases v with
  | ref a =>
    obtain ⟨o, ho⟩ := hv a rfl
    cases o with
    | record fs =>
      obtain ⟨fs', hl, hfs'⟩ := p.2 a fs ho
      simp only [Heap.getField, ho, hl]
      rw [hfs' g hg]
    | array xs =>
      simp only [Heap.getField, ho, p.1 a xs ho]
  | undefined => rfl
  | null => rfl
  | bool _ => rfl
  | num _ => rfl
  | str _ => rfl

theorem Preserves.isArray_stable {h h' : Heap} (p : Preserves h h')
    (v : Val) (hv : ValidVal h v) : isArray h' v = isArray h v := by
  cases v with
  | ref a =>
    obtain ⟨o, ho⟩ := hv a rfl
    cases o with
    | record fs =>
      obtain ⟨fs', hl, _⟩ := p.2 a fs ho
      simp only [isArray, ho, hl]
    | array xs =>
      simp only [isArray, ho, p.1 a xs ho]
  | undefined => rfl
  | null => rfl
  | bool _ => rfl
  | num _ => rfl
  | str _ => rfl

theorem Preserves.elems_stable {h h' : Heap} (p : Preserves h h')
    (v : Val) (hv : ValidVal h v) : h'.elems v = h.elems v := by
  cases v with
  | ref a =>
    obtain ⟨o, ho⟩ := hv a rfl
    cases o with
    | record fs =>
      obtain ⟨fs', hl, _⟩ := p.2 a fs ho
      simp only [Heap.elems, ho, hl]
    | array xs =>
      simp only [Heap.elems, ho, p.1 a xs ho]
  | undefined => rfl
  | null => rfl
  | bool _ => rfl
  | num _ => rfl
  | str _ => rfl

/-! ## Explicit layouts of the factory results -/

theorem createWorkflowNode_eq (h : Heap) (w : Val) :
    createWorkflowNode h w =
      (⟨h.objs ++ [.array [],
         .record [("id", h.getField w "id"), ("type", .str "workflow"),
                  ("node", w), ("children", .ref h.objs.length)]]⟩,
       .ref (h.objs.length + 1)) := by
  simp [createWorkflowNode, Heap.alloc]

theorem createCyclePointNode_eq (h : Heap) (fp : Val) :
    createCyclePointNode h fp =
      (⟨h.objs ++ [.record [("id", h.getField fp "cyclePoint"),
                            ("name", h.getField fp "cyclePoint")],
         .array [],
         .record [("open", .bool true)],
         .record [("id", h.getField fp "cyclePoint"),
                  ("type", .str "cyclepoint"),
                  ("node", .ref h.objs.length),
                  ("children", .ref (h.objs.length + 1)),
                  ("size", .num TREE_ITEM_SIZE),
                  ("state", .ref (h.objs.length + 2))]]⟩,
       .ref (h.objs.length + 3)) := by
  simp [createCyclePointNode, Heap.alloc]

theorem createFamilyProxyNode_eq (h : Heap) (fp : Val) :
    createFamilyProxyNode h fp =
      (⟨h.objs ++ [.array [],
         .record [("open", .bool true)],
         .record [("id", h.getField fp "id"),
                  ("type", .str "family-proxy"),
                  ("node", fp),
                  ("children", .ref h.objs.length),
                  ("size", .num TREE_ITEM_SIZE),
                  ("state", .ref (h.objs.length + 1))]]⟩,
       .ref (h.objs.length + 2)) := by
  simp [createFamilyProxyNode, Heap.alloc]

/-- The heap after `createTaskProxyNode`'s ghost-state defaulting step. -/
def taskStateHeap (h : Heap) (tp : Val) : Heap :=
  if truthy (h.getField tp "state") then h
  else h.setField tp "state" (.str "")

theorem createTaskProxyNode_eq (h : Heap) (tp : Val) :
    createTaskProxyNode h tp =
      (⟨(taskStateHeap h tp).objs ++ [.array [],
         .record [("open", .bool false)],
         .record [("id", (taskStateHeap h tp).getField tp "id"),
                  ("type", .str "task-proxy"),
                  ("node", tp),
                  ("children", .ref (taskStateHeap h tp).objs.length),
                  ("size", .num TREE_ITEM_SIZE),
                  ("state", .ref ((taskStateHeap h tp).objs.length + 1))]]⟩,
       .ref ((taskStateHeap h tp).objs.length + 2)) := by
  simp [createTaskProxyNode, taskStateHeap, Heap.alloc]

theorem createJobNode_eq (h : Heap) (j lm : Val) :
    createJobNode h j lm =
      (⟨h.objs ++ [.array [],
         .record [("open", .bool false)],
         .record [("id", .str (jsToString (h.getField j "id") ++ "-details")),
                  ("type", .str "job-details"),
                  ("node", j),
                  ("children", .ref h.objs.length),
                  ("size", .num (TREE_ITEM_SIZE * JOB_DETAIL_NODE_PROPERTIES.length)),
                  ("state", .ref (h.objs.length + 1))],
         .array [.ref (h.objs.length + 2)],
         .record [("open", .bool false)],
         .record [("id", h.getField j "id"),
                  ("type", .str "job"),
                  ("node", j),
                  ("latestMessage", if lm = .undefined then .str "" else lm),
                  ("children", .ref (h.objs.length + 3)),
                  ("size", .num TREE_ITEM_SIZE),
                  ("state", .ref (h.objs.length + 4))]]⟩,
       .ref (h.objs.length + 5)) := by
  simp [createJobNode, Heap.alloc]

example (h : Heap) (fp : Val) :
    (createCyclePointNode h fp).1.getField (createCyclePointNode h fp).2 "node" = .ref h.objs.length := by
  rw [createCyclePointNode_eq]
  simp [Heap.getField, Heap.lookup_append_add, lookupField, List.get?]

example (h : Heap) (fp : Val) :
    (createCyclePointNode h fp).1.getField
      ((createCyclePointNode h fp).1.getField (createCyclePointNode h fp).2 "state") "open" = .bool true := by
  rw [createCyclePointNode_eq]
  simp [Heap.getField, Heap.lookup_append_add, lookupField, List.get?]

/-! ## The validator -/

theorem jsAnd_eq_true (a b : Val) :
    jsAnd a b = .bool true ↔ truthy a = true ∧ b = .bool true := by
  unfold jsAnd
  by_cases ha : truthy a
  · simp [ha]
  · simp only [if_neg ha]
    constructor
    · intro hab
      subst hab
      simp [truthy] at ha
    · intro hb
      exact absurd hb.1 ha

theorem truthy_jsAnd (a b : Val) :
    truthy (jsAnd a b) = true ↔ truthy a = true ∧ truthy b = true := by
  unfold jsAnd
  by_cases ha : truthy a <;> simp [ha]

theorem truthy_of_isArray (h : Heap) (v : Val) (hv : isArray h v = true) :
    truthy v = true := by
  cases v with
  | ref a => rfl
  | undefined => exact absurd hv (by simp [isArray])
  | null => exact absurd hv (by simp [isArray])
  | bool b => exact absurd hv (by simp [isArray])
  | num n => exact absurd hv (by simp [isArray])
  | str s => exact absurd hv (by simp [isArray])

theorem containsTreeData_eq_true (h : Heap) (w : Val) :
    containsTreeData h w = .bool true ↔
      w ≠ .undefined ∧ w ≠ .null ∧
      isArray h (h.getField w "cyclePoints") = true ∧
      isArray h (h.getField w "familyProxies") = true ∧
      isArray h (h.getField w "taskProxies") = true := by
  unfold containsTreeData
  simp only [jsAnd_eq_true, truthy, bne_iff_ne, ne_eq, Val.bool.injEq]
  constructor
  · rintro ⟨h1, h2, _, h3, _, h4, _, h5⟩
    exact ⟨h1, h2, h3, h4, h5⟩
  · rintro ⟨h1, h2, h3, h4, h5⟩
    exact ⟨h1, h2, truthy_of_isArray _ _ h3, h3, truthy_of_isArray _ _ h4, h4,
      truthy_of_isArray _ _ h5, h5⟩

theorem containsTreeData_truthy_iff (h : Heap) (w : Val) :
    truthy (containsTreeData h w) = true ↔ containsTreeData h w = .bool true := by
  unfold containsTreeData
  simp only [jsAnd_eq_true, truthy_jsAnd]
  simp [truthy]

theorem getField_setArrayElems (h : Heap) (a : Addr) (xs ys : List Val)
    (ha : h.lookup a = some (.array xs)) (v : Val) (f : String) :
    (h.setObj a (.array ys)).getField v f = h.getField v f := by
  cases v with
  | ref b =>
    by_cases hba : b = a
    · subst hba
      simp only [Heap.getField, ha,
        Heap.lookup_setObj_self h b (Obj.array ys) (Obj.array xs) ha]
    · simp only [Heap.getField, Heap.lookup_setObj_ne h a b (Obj.array ys) hba]
  | undefined => rfl
  | null => rfl
  | bool _ => rfl
  | num _ => rfl
  | str _ => rfl

theorem isArray_setArrayElems (h : Heap) (a : Addr) (xs ys : List Val)
    (ha : h.lookup a = some (.array xs)) (v : Val) :
    isArray (h.setObj a (.array ys)) v = isArray h v := by
  cases v with
  | ref b =>
    by_cases hba : b = a
    · subst hba
      simp only [isArray, ha,
        Heap.lookup_setObj_self h b (Obj.array ys) (Obj.array xs) ha]
    · simp only [isArray, Heap.lookup_setObj_ne h a b (Obj.array ys) hba]
  | undefined => rfl
  | null => rfl
  | bool _ => rfl
  | num _ => rfl
  | str _ => rfl

/-- C3: `containsTreeData` returns `true` exactly when the candidate is
neither `null` nor `undefined` and its `cyclePoints`, `familyProxies` and
`taskProxies` fields are arrays (possibly empty); and it never inspects
the shape of array elements — replacing the elements of any array of the
heap leaves its result unchanged.  (As a Lean function of the heap it is
total and heap-value-passing, so it has no side effects and cannot
throw.) -/
theorem containsTreeData_spec (h : Heap) (w : Val) :
    (containsTreeData h w = .bool true ↔
      w ≠ .undefined ∧ w ≠ .null ∧
      isArray h (h.getField w "cyclePoints") = true ∧
      isArray h (h.getField w "familyProxies") = true ∧
      isArray h (h.getField w "taskProxies") = true) ∧
    (∀ a xs ys, h.lookup a = some (.array xs) →
      containsTreeData (h.setObj a (.array ys)) w = containsTreeData h w) := by
  constructor
  · exact containsTreeData_eq_true h w
  · intro a xs ys ha
    unfold containsTreeData
    simp only [getField_setArrayElems h a xs ys ha,
      isArray_setArrayElems h a xs ys ha]

/-- A demonstration workflow heap, mirroring the worked example of the
spec: workflow `w1` with one cycle point `2024`, one family proxy `f1`
and one task proxy `t1` owning one job `j1`. -/
def exHeap : Heap := ⟨[
  .record [("cyclePoint", .str "2024")],
  .array [.ref 0],
  .record [("id", .str "f1")],
  .array [.ref 2],
  .record [("id", .str "j1")],
  .array [.ref 4],
  .record [("id", .str "t1"), ("latestMessage", .str "hello"),
           ("jobs", .ref 5)],
  .array [.ref 6],
  .record [("id", .str "w1"), ("cyclePoints", .ref 1),
           ("familyProxies", .ref 3), ("taskProxies", .ref 7)],
  .record []
]⟩

/-- Witness for C3: the demonstration workflow record passes the
validator, and emptying the `cyclePoints` array's elements does not
change the validator's verdict. -/
theorem containsTreeData_spec_witness :
    containsTreeData exHeap (.ref 8) = .bool true ∧
    containsTreeData (exHeap.setObj 1 (.array [])) (.ref 8) =
      containsTreeData exHeap (.ref 8) := by
  constructor
  · exact (containsTreeData_spec exHeap (.ref 8)).1.mpr
      ⟨by decide, by decide, by decide, by decide, by decide⟩
  · exact (containsTreeData_spec exHeap (.ref 8)).2 1 [.ref 0] [] (by decide)

/-- C2: with a `null` tree, a `null` workflow, or a workflow rejected by
the validator, `populateTreeFromGraphQLData` raises the single generic
validation error; the error result carries no Tree Store insertion at
all (`setWorkflow`, `addCyclePoint`, `addFamilyProxy`, `addTaskProxy`
and `addJob` are never called) and leaves the heap untouched, so the
tree is unchanged on invalid input. -/
theorem populate_invalid_input (h : Heap) (tree w : Val)
    (hbad : tree = .null ∨ w = .null ∨ containsTreeData h w ≠ .bool true) :
    populateTreeFromGraphQLData h tree w =
      .error "You must provide valid data to populate the tree!" := by
  unfold populateTreeFromGraphQLData
  rcases hbad with h1 | h1 | h1
  · subst h1
    simp [truthy]
  · subst h1
    simp [truthy]
  · have hf : truthy (containsTreeData h w) = false := by
      rw [← Bool.not_eq_true]
      intro hc
      exact h1 ((containsTreeData_truthy_iff h w).mp hc)
    simp [hf]

/-- Witness for C2: populating from a `null` workflow raises the
validation error. -/
theorem populate_invalid_input_witness :
    populateTreeFromGraphQLData exHeap (.ref 9) .null =
      .error "You must provide valid data to populate the tree!" :=
  populate_invalid_input exHeap (.ref 9) .null (Or.inr (Or.inl rfl))

/-- C4 counterexample: `createCyclePointNode` does *not* store the
caller's record in the node's `node` field; on the concrete record
`{cyclePoint: '2024'}` at address 0, the produced node's `node` field is
a fresh object, not a reference to address 0. -/
theorem createCyclePointNode_node_not_shared :
    (createCyclePointNode ⟨[.record [("cyclePoint", .str "2024")]]⟩ (.ref 0)).1.getField
      (createCyclePointNode ⟨[.record [("cyclePoint", .str "2024")]]⟩ (.ref 0)).2
      "node" ≠ .ref 0 := by decide

/-- C4 amended: for the factories `createWorkflowNode`,
`createFamilyProxyNode`, `createTaskProxyNode` and `createJobNode`, the
produced node's `node` field is the very value supplied by the caller (a
shared reference when that value is an object reference, so mutations of
the record are visible through the tree node and vice versa);
`createCyclePointNode` instead builds a fresh `node` object carrying
only the record's `cyclePoint` as its `id` and `name`. -/
theorem factory_node_shared (h : Heap) (v lm : Val) :
    ((createWorkflowNode h v).1.getField (createWorkflowNode h v).2 "node" = v) ∧
    ((createFamilyProxyNode h v).1.getField (createFamilyProxyNode h v).2 "node" = v) ∧
    ((createTaskProxyNode h v).1.getField (createTaskProxyNode h v).2 "node" = v) ∧
    ((createJobNode h v lm).1.getField (createJobNode h v lm).2 "node" = v) ∧
    ((createCyclePointNode h v).1.getField (createCyclePointNode h v).2 "node"
        = .ref h.objs.length ∧
      (createCyclePointNode h v).1.lookup h.objs.length =
        some (.record [("id", h.getField v "cyclePoint"),
                       ("name", h.getField v "cyclePoint")])) := by
  refine ⟨?_, ?_, ?_, ?_, ?_, ?_⟩
  · rw [createWorkflowNode_eq]
    simp [Heap.getField, Heap.lookup_append_add, lookupField, List.get?]
  · rw [createFamilyProxyNode_eq]
    simp [Heap.getField, Heap.lookup_append_add, lookupField, List.get?]
  · rw [createTaskProxyNode_eq]
    simp [Heap.getField, Heap.lookup_append_add, lookupField, List.get?]
  · rw [createJobNode_eq]
    simp [Heap.getField, Heap.lookup_append_add, lookupField, List.get?]
  · rw [createCyclePointNode_eq]
    simp [Heap.getField, Heap.lookup_append_add, lookupField, List.get?]
  · rw [createCyclePointNode_eq]
    have := Heap.lookup_append_add h.objs
      [.record [("id", h.getField v "cyclePoint"),
                ("name", h.getField v "cyclePoint")],
       .array [],
       .record [("open", .bool true)],
       .record [("id", h.getField v "cyclePoint"),
                ("type", .str "cyclepoint"),
                ("node", .ref h.objs.length),
                ("children", .ref (h.objs.length + 1)),
                ("size", .num TREE_ITEM_SIZE),
                ("state", .ref (h.objs.length + 2))]] 0
    simpa using this

/-- C7: the cycle-point node's `id` is the record's `cyclePoint` value
and its `state.open` is `true`; the family-proxy node's `state.open` is
`true`; the task-proxy and job nodes' `state.open` are `false`; and the
workflow root node's record has neither a `size` nor a `state` field. -/
theorem factory_node_defaults (h : Heap) (v lm : Val) :
    ((createCyclePointNode h v).1.getField (createCyclePointNode h v).2 "id"
        = h.getField v "cyclePoint") ∧
    ((createCyclePointNode h v).1.getField
        ((createCyclePointNode h v).1.getField (createCyclePointNode h v).2 "state")
        "open" = .bool true) ∧
    ((createFamilyProxyNode h v).1.getField
        ((createFamilyProxyNode h v).1.getField (createFamilyProxyNode h v).2 "state")
        "open" = .bool true) ∧
    ((createTaskProxyNode h v).1.getField
        ((createTaskProxyNode h v).1.getField (createTaskProxyNode h v).2 "state")
        "open" = .bool false) ∧
    ((createJobNode h v lm).1.getField
        ((createJobNode h v lm).1.getField (createJobNode h v lm).2 "state")
        "open" = .bool false) ∧
    (∃ a fs, (createWorkflowNode h v).2 = .ref a ∧
      (createWorkflowNode h v).1.lookup a = some (.record fs) ∧
      lookupField fs "size" = none ∧ lookupField fs "state" = none) := by
  refine ⟨?_, ?_, ?_, ?_, ?_, ?_⟩
  · rw [createCyclePointNode_eq]
    simp [Heap.getField, Heap.lookup_append_add, lookupField, List.get?]
  · rw [createCyclePointNode_eq]
    simp [Heap.getField, Heap.lookup_append_add, lookupField, List.get?]
  · rw [createFamilyProxyNode_eq]
    simp [Heap.getField, Heap.lookup_append_add, lookupField, List.get?]
  · rw [createTaskProxyNode_eq]
    simp [Heap.getField, Heap.lookup_append_add, lookupField, List.get?]
  · rw [createJobNode_eq]
    simp [Heap.getField, Heap.lookup_append_add, lookupField, List.get?]
  · refine ⟨h.objs.length + 1,
      [("id", h.getField v "id"), ("type", .str "workflow"),
       ("node", v), ("children", .ref h.objs.length)], ?_, ?_, rfl, rfl⟩
    · rw [createWorkflowNode_eq]
    · rw [createWorkflowNode_eq]
      have := Heap.lookup_append_add h.objs
        [.array [],
         .record [("id", h.getField v "id"), ("type", .str "workflow"),
                  ("node", v), ("children", .ref h.objs.length)]] 1
      simpa using this

/-- C8: `createWorkflowNode`, `createCyclePointNode`,
`createFamilyProxyNode` and `createJobNode` leave every pre-existing
heap object — in particular their input record — completely unchanged
(they only allocate); `createTaskProxyNode` changes at most the `state`
field of a pre-existing record, leaving arrays and every other record
field unchanged. -/
theorem factories_frame (h : Heap) (v lm : Val) (a : Addr) (o : Obj)
    (ho : h.lookup a = some o) :
    (createWorkflowNode h v).1.lookup a = some o ∧
    (createCyclePointNode h v).1.lookup a = some o ∧
    (createFamilyProxyNode h v).1.lookup a = some o ∧
    (createJobNode h v lm).1.lookup a = some o ∧
    (∀ xs, o = .array xs → (createTaskProxyNode h v).1.lookup a = some o) ∧
    (∀ fs, o = .record fs →
      ∃ fs', (createTaskProxyNode h v).1.lookup a = some (.record fs') ∧
        ∀ g, g ≠ "state" → lookupField fs' g = lookupField fs g) := by
  refine ⟨createWorkflowNode_extends h v a o ho,
    createCyclePointNode_extends h v a o ho,
    createFamilyProxyNode_extends h v a o ho,
    createJobNode_extends h v lm a o ho, ?_, ?_⟩
  · intro xs hxs
    subst hxs
    exact (createTaskProxyNode_preserves h v).1 a xs ho
  · intro fs hfs
    subst hfs
    exact (createTaskProxyNode_preserves h v).2 a fs ho

/-- Witness for C8: on the demonstration heap, the factories leave the
task-proxy record at address 6 unchanged except (at most) its `state`
field. -/
theorem factories_frame_witness :
    (createWorkflowNode exHeap (.ref 8)).1.lookup 6 =
      some (.record [("id", .str "t1"), ("latestMessage", .str "hello"),
                     ("jobs", .ref 5)]) ∧
    (∃ fs', (createTaskProxyNode exHeap (.ref 6)).1.lookup 6 =
        some (.record fs') ∧
      ∀ g, g ≠ "state" → lookupField fs' g =
        lookupField [("id", .str "t1"), ("latestMessage", .str "hello"),
                     ("jobs", .ref 5)] g) := by
  refine ⟨(factories_frame exHeap (.ref 8) .undefined 6 _ (by decide)).1, ?_⟩
  exact (factories_frame exHeap (.ref 6) .undefined 6 _ (by decide)).2.2.2.2.2
    [("id", .str "t1"), ("latestMessage", .str "hello"), ("jobs", .ref 5)] rfl

/-! ## Task-proxy ghost-state defaulting -/

theorem Extends.getField_eq {h h' : Heap} (e : Extends h h') (v : Val)
    (hv : ValidVal h v) (g : String) : h'.getField v g = h.getField v g := by
  cases v with
  | ref a =>
    obtain ⟨o, ho⟩ := hv a rfl
    simp only [Heap.getField, ho, e a o ho]
  | undefined => rfl
  | null => rfl
  | bool _ => rfl
  | num _ => rfl
  | str _ => rfl

theorem Heap.getField_setField_other (h : Heap) (tp : Val) (f : String)
    (x : Val) (a : Addr) (g : String) (hne : tp ≠ .ref a) :
    (h.setField tp f x).getField (.ref a) g = h.getField (.ref a) g := by
  unfold Heap.setField
  cases tp with
  | ref b =>
    have hab : a ≠ b := fun h' => hne (by rw [h'])
    cases hb : h.lookup b with
    | none => simp [hb]
    | some o =>
      cases o with
      | array _ => simp [hb]
      | record gs =>
        simp only [hb, Heap.getField, Heap.lookup_setObj_ne h b a _ hab]
  | undefined => rfl
  | null => rfl
  | bool _ => rfl
  | num _ => rfl
  | str _ => rfl

theorem taskStateHeap_preserves (h : Heap) (tp : Val) :
    Preserves h (taskStateHeap h tp) := by
  unfold taskStateHeap
  by_cases hs : truthy (h.getField tp "state")
  · rw [if_pos hs]
    exact Preserves.refl_pres h
  · rw [if_neg hs]
    exact Preserves.setState h tp

theorem createTaskProxyNode_extends_mid (h : Heap) (tp : Val) :
    Extends (taskStateHeap h tp) (createTaskProxyNode h tp).1 := by
  unfold createTaskProxyNode taskStateHeap
  exact ((Extends.alloc _ _).trans_ext (Extends.alloc _ _)).trans_ext (Extends.alloc _ _)

theorem taskStateHeap_getField_state (h : Heap) (tp : Val) (a : Addr)
    (fs : List (String × Val)) (hl : h.lookup a = some (.record fs)) :
    (taskStateHeap h tp).getField (.ref a) "state" =
      if tp = .ref a ∧ truthy (h.getField (.ref a) "state") = false then .str ""
      else h.getField (.ref a) "state" := by
  unfold taskStateHeap
  by_cases hs : truthy (h.getField tp "state")
  · rw [if_pos hs]
    by_cases hta : tp = .ref a
    · subst hta
      rw [if_neg (fun hc => by rw [hs] at hc; exact Bool.noConfusion hc.2)]
    · rw [if_neg (fun hc => hta hc.1)]
  · rw [if_neg hs]
    by_cases hta : tp = .ref a
    · subst hta
      rw [if_pos ⟨rfl, Bool.not_eq_true _ ▸ hs⟩,
        Heap.getField_setField_self h a fs "state" (.str "") hl]
    · rw [if_neg (fun hc => hta hc.1),
        Heap.getField_setField_other h tp "state" (.str "") a "state" hta]

theorem createTaskProxyNode_getField_state (h : Heap) (tp : Val) (a : Addr)
    (fs : List (String × Val)) (hl : h.lookup a = some (.record fs)) :
    (createTaskProxyNode h tp).1.getField (.ref a) "state" =
      if tp = .ref a ∧ truthy (h.getField (.ref a) "state") = false then .str ""
      else h.getField (.ref a) "state" := by
  obtain ⟨fs', hfs', _⟩ := (taskStateHeap_preserves h tp).2 a fs hl
  rw [Extends.getField_eq (createTaskProxyNode_extends_mid h tp) (.ref a)
    (ValidVal.of_lookup _ a _ hfs') "state",
    taskStateHeap_getField_state h tp a fs hl]

/-- C10: `createTaskProxyNode` rewrites the shared record's `state` to
the empty string whenever the existing value is falsy (absent/undefined,
`''`, `null`, `0` or `false`) — and keeps the existing value exactly
when it is truthy. -/
theorem createTaskProxyNode_state_overwrite (h : Heap) (a : Addr)
    (fs : List (String × Val)) (hl : h.lookup a = some (.record fs)) :
    (createTaskProxyNode h (.ref a)).1.getField (.ref a) "state" =
      if truthy (h.getField (.ref a) "state") = true
      then h.getField (.ref a) "state" else .str "" := by
  rw [createTaskProxyNode_getField_state h (.ref a) a fs hl]
  by_cases hs : truthy (h.getField (.ref a) "state") = true
  · rw [if_neg (fun hc => by rw [hs] at hc; exact Bool.noConfusion hc.2),
      if_pos hs]
  · rw [if_pos ⟨rfl, Bool.not_eq_true _ ▸ hs⟩, if_neg hs]

/-- Witness for C10: a record whose `state` is `null` (falsy but
present) is rewritten to `''`, and one whose `state` is `'running'`
(truthy) is preserved. -/
theorem createTaskProxyNode_state_overwrite_witness :
    (createTaskProxyNode ⟨[.record [("state", .null)]]⟩ (.ref 0)).1.getField
      (.ref 0) "state" = .str "" ∧
    (createTaskProxyNode ⟨[.record [("state", .str "running")]]⟩ (.ref 0)).1.getField
      (.ref 0) "state" = .str "running" := by
  constructor
  · have := createTaskProxyNode_state_overwrite ⟨[.record [("state", .null)]]⟩
      0 [("state", .null)] (by decide)
    rw [this]
    decide
  · have := createTaskProxyNode_state_overwrite ⟨[.record [("state", .str "running")]]⟩
      0 [("state", .str "running")] (by decide)
    rw [this]
    decide

/-- The heap after one iteration of the task-proxy loop (task-proxy node
plus that task proxy's job nodes). -/
def taskJobsHeap (h : Heap) (tp : Val) : Heap :=
  (if truthy ((createTaskProxyNode h tp).1.getField tp "jobs")
   then processJobs (createTaskProxyNode h tp).1
     ((createTaskProxyNode h tp).1.getField tp "latestMessage")
     ((createTaskProxyNode h tp).1.elems
       ((createTaskProxyNode h tp).1.getField tp "jobs"))
   else ((createTaskProxyNode h tp).1, ([] : List TreeOp))).1

theorem processTaskProxies_fst_cons (h : Heap) (tp : Val) (tps : List Val) :
    (processTaskProxies h (tp :: tps)).1 =
      (processTaskProxies (taskJobsHeap h tp) tps).1 := rfl

theorem taskJobsHeap_extends (h : Heap) (tp : Val) :
    Extends (createTaskProxyNode h tp).1 (taskJobsHeap h tp) := by
  unfold taskJobsHeap
  by_cases hj : truthy ((createTaskProxyNode h tp).1.getField tp "jobs")
  · rw [if_pos hj]
    exact processJobs_extends _ _ _
  · rw [if_neg hj]
    exact Extends.refl_ext _

theorem processTaskProxies_keeps_empty (l : List Val) (h : Heap) (a : Addr)
    (fs : List (String × Val)) (hl : h.lookup a = some (.record fs))
    (hs : h.getField (.ref a) "state" = .str "") :
    (processTaskProxies h l).1.getField (.ref a) "state" = .str "" := by
  induction l generalizing h fs with
  | nil => exact hs
  | cons tp tps ih =>
    rw [processTaskProxies_fst_cons]
    obtain ⟨fs1, hl1, _⟩ := (createTaskProxyNode_preserves h tp).2 a fs hl
    have h1s : (createTaskProxyNode h tp).1.getField (.ref a) "state" = .str "" := by
      rw [createTaskProxyNode_getField_state h tp a fs hl]
      by_cases hc : tp = .ref a ∧ truthy (h.getField (.ref a) "state") = false
      · rw [if_pos hc]
      · rw [if_neg hc]
        exact hs
    have h2s : (taskJobsHeap h tp).getField (.ref a) "state" = .str "" := by
      rw [Extends.getField_eq (taskJobsHeap_extends h tp) (.ref a)
        (ValidVal.of_lookup _ a _ hl1) "state"]
      exact h1s
    exact ih (taskJobsHeap h tp) fs1 (taskJobsHeap_extends h tp a _ hl1) h2s

theorem processTaskProxies_sets_state (l : List Val) (h : Heap) (a : Addr)
    (fs : List (String × Val)) (hl : h.lookup a = some (.record fs))
    (hmem : (.ref a) ∈ l)
    (hs : truthy (h.getField (.ref a) "state") = false) :
    (processTaskProxies h l).1.getField (.ref a) "state" = .str "" := by
  induction l generalizing h fs with
  | nil => cases hmem
  | cons tp tps ih =>
    rw [processTaskProxies_fst_cons]
    obtain ⟨fs1, hl1, _⟩ := (createTaskProxyNode_preserves h tp).2 a fs hl
    by_cases hta : tp = .ref a
    · have h1s : (createTaskProxyNode h tp).1.getField (.ref a) "state" = .str "" := by
        rw [createTaskProxyNode_getField_state h tp a fs hl, if_pos ⟨hta, hs⟩]
      have h2s : (taskJobsHeap h tp).getField (.ref a) "state" = .str "" := by
        rw [Extends.getField_eq (taskJobsHeap_extends h tp) (.ref a)
          (ValidVal.of_lookup _ a _ hl1) "state"]
        exact h1s
      exact processTaskProxies_keeps_empty tps (taskJobsHeap h tp) a fs1
        (taskJobsHeap_extends h tp a _ hl1) h2s
    · have hmem' : (.ref a) ∈ tps := by
        rcases List.mem_cons.mp hmem with he | ht
        · exact absurd he.symm hta
        · exact ht
      have h1s : (createTaskProxyNode h tp).1.getField (.ref a) "state"
          = h.getField (.ref a) "state" := by
        rw [createTaskProxyNode_getField_state h tp a fs hl,
          if_neg (fun hc => hta hc.1)]
      have h2s : truthy ((taskJobsHeap h tp).getField (.ref a) "state") = false := by
        rw [Extends.getField_eq (taskJobsHeap_extends h tp) (.ref a)
          (ValidVal.of_lookup _ a _ hl1) "state", h1s]
        exact hs
      exact ih (taskJobsHeap h tp) fs1 (taskJobsHeap_extends h tp a _ hl1)
        hmem' h2s

/-! ## Stages of the population run (naming populate's intermediate
results, for use in the theorems below) -/

/-- Heap after inserting the workflow root node. -/
def popH1 (h : Heap) (w : Val) : Heap := (createWorkflowNode h w).1

/-- Result of the cycle-point loop. -/
def popCp (h : Heap) (w : Val) : Heap × List TreeOp :=
  processCyclePoints (popH1 h w)
    ((popH1 h w).elems ((popH1 h w).getField w "cyclePoints"))

/-- Result of the family-proxy loop. -/
def popFp (h : Heap) (w : Val) : Heap × List TreeOp :=
  processFamilyProxies (popCp h w).1
    ((popCp h w).1.elems ((popCp h w).1.getField w "familyProxies"))

/-- Result of the task-proxy (and jobs) loop. -/
def popTp (h : Heap) (w : Val) : Heap × List TreeOp :=
  processTaskProxies (popFp h w).1
    ((popFp h w).1.elems ((popFp h w).1.getField w "taskProxies"))

theorem populate_eq_ok (h : Heap) (tree w : Val)
    (ht : truthy tree = true) (hw : truthy w = true)
    (hc : truthy (containsTreeData h w) = true) :
    populateTreeFromGraphQLData h tree w =
      .ok ((popTp h w).1,
        .setWorkflow (createWorkflowNode h w).2 ::
          ((popCp h w).2 ++ ((popFp h w).2 ++ (popTp h w).2))) := by
  unfold populateTreeFromGraphQLData
  simp only [ht, hw, hc, Bool.not_true, Bool.or_self, Bool.or_false,
    Bool.false_or, if_false]
  rfl

theorem populate_ok_inv (h : Heap) (tree w : Val) (h' : Heap)
    (ops : List TreeOp)
    (hpop : populateTreeFromGraphQLData h tree w = .ok (h', ops)) :
    truthy tree = true ∧ truthy w = true ∧
    containsTreeData h w = .bool true ∧
    h' = (popTp h w).1 ∧
    ops = .setWorkflow (createWorkflowNode h w).2 ::
      ((popCp h w).2 ++ ((popFp h w).2 ++ (popTp h w).2)) := by
  by_cases ht : truthy tree = true
  · by_cases hw : truthy w = true
    · by_cases hc : truthy (containsTreeData h w) = true
      · have heq := populate_eq_ok h tree w ht hw hc
        rw [heq] at hpop
        have hpair := Except.ok.inj hpop
        refine ⟨ht, hw, (containsTreeData_truthy_iff h w).mp hc, ?_, ?_⟩
        · exact (congrArg Prod.fst hpair).symm
        · exact (congrArg Prod.snd hpair).symm
      · exfalso
        unfold populateTreeFromGraphQLData at hpop
        rw [if_pos (by simp [Bool.not_eq_true _ ▸ hc])] at hpop
        exact Except.noConfusion hpop
    · exfalso
      unfold populateTreeFromGraphQLData at hpop
      rw [if_pos (by simp [Bool.not_eq_true _ ▸ hw])] at hpop
      exact Except.noConfusion hpop
  · exfalso
    unfold populateTreeFromGraphQLData at hpop
    rw [if_pos (by simp [Bool.not_eq_true _ ▸ ht])] at hpop
    exact Except.noConfusion hpop

theorem isArray_inv (h : Heap) (v : Val) (hv : isArray h v = true) :
    ∃ c xs, v = .ref c ∧ h.lookup c = some (.array xs) := by
  cases v with
  | ref c =>
    cases hc : h.lookup c with
    | none => exact absurd hv (by simp [isArray, hc])
    | some o =>
      cases o with
      | record fs => exact absurd hv (by simp [isArray, hc])
      | array xs => exact ⟨c, xs, rfl, hc⟩
  | undefined => exact absurd hv (by simp [isArray])
  | null => exact absurd hv (by simp [isArray])
  | bool b => exact absurd hv (by simp [isArray])
  | num n => exact absurd hv (by simp [isArray])
  | str s => exact absurd hv (by simp [isArray])

theorem getField_record_inv (h : Heap) (v : Val) (f : String)
    (hne : h.getField v f ≠ .undefined) :
    ∃ b fs, v = .ref b ∧ h.lookup b = some (.record fs) := by
  cases v with
  | ref b =>
    cases hb : h.lookup b with
    | none => exact absurd (by simp [Heap.getField, hb]) hne
    | some o =>
      cases o with
      | record fs => exact ⟨b, fs, rfl, hb⟩
      | array xs => exact absurd (by simp [Heap.getField, hb]) hne
  | undefined => exact absurd rfl hne
  | null => exact absurd rfl hne
  | bool b => exact absurd rfl hne
  | num n => exact absurd rfl hne
  | str s => exact absurd rfl hne

theorem isArray_ne_undef (h : Heap) (v : Val) (hv : isArray h v = true) :
    v ≠ .undefined := by
  intro he
  rw [he] at hv
  exact Bool.noConfusion hv

theorem popFp_extends (h : Heap) (w : Val) : Extends h (popFp h w).1 := by
  refine ((createWorkflowNode_extends h w).trans_ext ?_)
  exact (processCyclePoints_extends _ _).trans_ext (processFamilyProxies_extends _ _)

/-- C5: a task-proxy record with no `state` field has its `state` set to
`''` by `createTaskProxyNode` — and hence by a population run over a
workflow containing it — observably on the original shared record
itself. -/
theorem ghost_state_defaulting (h : Heap) (a : Addr)
    (fs : List (String × Val)) (hl : h.lookup a = some (.record fs))
    (habs : lookupField fs "state" = none) :
    (createTaskProxyNode h (.ref a)).1.getField (.ref a) "state" = .str "" ∧
    ∀ tree w h' ops,
      populateTreeFromGraphQLData h tree w = .ok (h', ops) →
      (.ref a) ∈ h.elems (h.getField w "taskProxies") →
      h'.getField (.ref a) "state" = .str "" := by
  have hstate : h.getField (.ref a) "state" = .undefined := by
    simp [Heap.getField, hl, habs]
  constructor
  · rw [createTaskProxyNode_getField_state h (.ref a) a fs hl,
      if_pos ⟨rfl, by rw [hstate]; rfl⟩]
  · intro tree w h' ops hpop hmem
    obtain ⟨ht, hw, hctd, hh', hops⟩ := populate_ok_inv h tree w h' ops hpop
    obtain ⟨hwu, hwn, hcpA, hfpA, htpA⟩ := (containsTreeData_eq_true h w).mp hctd
    obtain ⟨b, gs, hwb, hwr⟩ := getField_record_inv h w "taskProxies"
      (isArray_ne_undef h _ htpA)
    have hvw : ValidVal h w := by
      rw [hwb]
      exact ValidVal.of_lookup h b _ hwr
    have e := popFp_extends h w
    have hgf : (popFp h w).1.getField w "taskProxies"
        = h.getField w "taskProxies" :=
      Extends.getField_eq e w hvw "taskProxies"
    obtain ⟨c, xs, hcx, hcl⟩ := isArray_inv h _ htpA
    have hel : (popFp h w).1.elems (h.getField w "taskProxies")
        = h.elems (h.getField w "taskProxies") := by
      refine e.toPreserves.elems_stable _ ?_
      rw [hcx]
      exact ValidVal.of_lookup h c _ hcl
    have hl' : (popFp h w).1.lookup a = some (.record fs) := e a _ hl
    have hs' : truthy ((popFp h w).1.getField (.ref a) "state") = false := by
      rw [Extends.getField_eq e (.ref a)
        (ValidVal.of_lookup h a _ hl) "state", hstate]
      rfl
    rw [hh']
    have hptp : (popTp h w).1 = (processTaskProxies (popFp h w).1
        ((popFp h w).1.elems ((popFp h w).1.getField w "taskProxies"))).1 := rfl
    rw [hptp]
    refine processTaskProxies_sets_state _ (popFp h w).1 a fs hl' ?_ hs'
    rw [hgf, hel]
    exact hmem

/-- Witness for C5: the demonstration task-proxy record `t1` (which has
no `state` field) ends up with `state = ''` on the shared record. -/
theorem ghost_state_defaulting_witness :
    (createTaskProxyNode exHeap (.ref 6)).1.getField (.ref 6) "state" = .str "" :=
  (ghost_state_defaulting exHeap 6
    [("id", .str "t1"), ("latestMessage", .str "hello"), ("jobs", .ref 5)]
    (by decide) (by decide)).1

/-! ## Job nodes -/

theorem createJobNode_snd (h : Heap) (j lm : Val) :
    (createJobNode h j lm).2 = .ref (h.objs.length + 5) := by
  rw [createJobNode_eq]

theorem createJobNode_result_lookup (h : Heap) (j lm : Val) :
    (createJobNode h j lm).1.lookup (h.objs.length + 5) =
      some (.record
        [("id", h.getField j "id"),
         ("type", .str "job"),
         ("node", j),
         ("latestMessage", if lm = .undefined then .str "" else lm),
         ("children", .ref (h.objs.length + 3)),
         ("size", .num TREE_ITEM_SIZE),
         ("state", .ref (h.objs.length + 4))]) := by
  rw [createJobNode_eq]
  have := Heap.lookup_append_add h.objs
    [.array [],
     .record [("open", .bool false)],
     .record [("id", .str (jsToString (h.getField j "id") ++ "-details")),
              ("type", .str "job-details"),
              ("node", j),
              ("children", .ref h.objs.length),
              ("size", .num (TREE_ITEM_SIZE * JOB_DETAIL_NODE_PROPERTIES.length)),
              ("state", .ref (h.objs.length + 1))],
     .array [.ref (h.objs.length + 2)],
     .record [("open", .bool false)],
     .record [("id", h.getField j "id"),
              ("type", .str "job"),
              ("node", j),
              ("latestMessage", if lm = .undefined then .str "" else lm),
              ("children", .ref (h.objs.length + 3)),
              ("size", .num TREE_ITEM_SIZE),
              ("state", .ref (h.objs.length + 4))]] 5
  simpa using this

theorem createJobNode_latestMessage (h : Heap) (j lm : Val) :
    (createJobNode h j lm).1.getField (createJobNode h j lm).2 "latestMessage"
      = if lm = .undefined then .str "" else lm := by
  rw [createJobNode_snd]
  simp [Heap.getField, createJobNode_result_lookup h j lm, lookupField]

theorem processJobs_latestMessage (js : List Val) (h : Heap) (lm : Val) :
    ∀ op ∈ (processJobs h lm js).2,
      (processJobs h lm js).1.getField op.node "latestMessage"
        = if lm = .undefined then .str "" else lm := by
  induction js generalizing h with
  | nil =>
    intro op hop
    simp [processJobs] at hop
  | cons j js ih =>
    intro op hop
    have hsplit : processJobs h lm (j :: js) =
        ((processJobs (createJobNode h j lm).1 lm js).1,
         .addJob (createJobNode h j lm).2 ::
           (processJobs (createJobNode h j lm).1 lm js).2) := rfl
    rw [hsplit] at hop ⊢
    rcases List.mem_cons.mp hop with he | ht
    · subst he
      show (processJobs (createJobNode h j lm).1 lm js).1.getField
        (createJobNode h j lm).2 "latestMessage" = _
      rw [Extends.getField_eq
        (processJobs_extends (createJobNode h j lm).1 lm js)
        (createJobNode h j lm).2 ?_ "latestMessage"]
      · exact createJobNode_latestMessage h j lm
      · rw [createJobNode_snd]
        exact ValidVal.of_lookup _ _ _ (createJobNode_result_lookup h j lm)
    · exact ih _ op ht

/-- C6: every job node has exactly one child, of type `job-details`,
with id `<jobId>-details`, size `TREE_ITEM_SIZE` (32) times the number
of displayable job-detail properties (7), and `state.open = false`; and
the job node's `latestMessage` is the value the orchestrator passes —
the owning task proxy's `latestMessage`, never a field of the job record
(the `processJobs` conjunct covers every job node inserted for one task
proxy, whose `lm` argument `processTaskProxies` instantiates with the
task proxy's `latestMessage`). -/
theorem createJobNode_details (h : Heap) (j lm : Val) (s : String)
    (js : List Val) (hid : h.getField j "id" = .str s) (hlm : lm ≠ .undefined) :
    (∃ d,
      (createJobNode h j lm).1.elems
        ((createJobNode h j lm).1.getField (createJobNode h j lm).2 "children")
        = [d] ∧
      (createJobNode h j lm).1.getField d "type" = .str "job-details" ∧
      (createJobNode h j lm).1.getField d "id" = .str (s ++ "-details") ∧
      (createJobNode h j lm).1.getField d "size"
        = .num (TREE_ITEM_SIZE * JOB_DETAIL_NODE_PROPERTIES.length) ∧
      (createJobNode h j lm).1.getField
        ((createJobNode h j lm).1.getField d "state") "open" = .bool false) ∧
    (createJobNode h j lm).1.getField (createJobNode h j lm).2 "latestMessage"
      = lm ∧
    ∀ op ∈ (processJobs h lm js).2,
      (processJobs h lm js).1.getField op.node "latestMessage" = lm := by
  refine ⟨⟨.ref (h.objs.length + 2), ?_, ?_, ?_, ?_, ?_⟩, ?_, ?_⟩
  · rw [createJobNode_eq]
    simp [Heap.getField, Heap.elems, Heap.lookup_append_add, lookupField,
      List.get?]
  · rw [createJobNode_eq]
    simp [Heap.getField, Heap.lookup_append_add, lookupField, List.get?]
  · rw [createJobNode_eq, hid]
    simp [Heap.getField, Heap.lookup_append_add, lookupField, List.get?,
      jsToString]
  · rw [createJobNode_eq]
    simp [Heap.getField, Heap.lookup_append_add, lookupField, List.get?]
  · rw [createJobNode_eq]
    simp [Heap.getField, Heap.lookup_append_add, lookupField, List.get?]
  · rw [createJobNode_latestMessage h j lm, if_neg hlm]
  · intro op hop
    rw [processJobs_latestMessage js h lm op hop, if_neg hlm]

/-- Witness for C6: the demonstration job `j1` with the task's
`latestMessage` `'hello'`. -/
theorem createJobNode_details_witness :
    (createJobNode exHeap (.ref 4) (.str "hello")).1.getField
      (createJobNode exHeap (.ref 4) (.str "hello")).2 "latestMessage"
      = .str "hello" :=
  (createJobNode_details exHeap (.ref 4) (.str "hello") "j1" [.ref 4]
    (by decide) (by decide)).2.1

/-! ## The shape of the insertion trace -/

/-- The number of jobs the population loop will insert for one
task-proxy record in heap `h`. -/
def jobsCount (h : Heap) (tp : Val) : Nat :=
  if truthy (h.getField tp "jobs") then (h.elems (h.getField tp "jobs")).length
  else 0

/-- A task-proxy element the population loop can iterate faithfully: an
object (record) reference whose `jobs` field, when truthy, is an array
(as every GraphQL task proxy is; a truthy non-iterable `jobs` would make
the source's `for...of` throw). -/
def TaskRecOk (h : Heap) (tp : Val) : Prop :=
  (∃ a fs, tp = .ref a ∧ h.lookup a = some (.record fs)) ∧
  (truthy (h.getField tp "jobs") = true →
    isArray h (h.getField tp "jobs") = true)

theorem TaskRecOk.mono {h h' : Heap} (p : Preserves h h') (tp : Val)
    (ho : TaskRecOk h tp) : TaskRecOk h' tp := by
  obtain ⟨⟨a, fs, rfl, hl⟩, hj⟩ := ho
  have hvf := ValidVal.of_lookup h a _ hl
  have hgf : h'.getField (.ref a) "jobs" = h.getField (.ref a) "jobs" :=
    p.getField_stable _ hvf "jobs" (by decide)
  constructor
  · obtain ⟨fs', hl', _⟩ := p.2 a fs hl
    exact ⟨a, fs', rfl, hl'⟩
  · intro ht
    rw [hgf] at ht ⊢
    obtain ⟨c, xs, hcx, hcl⟩ := isArray_inv h _ (hj ht)
    rw [p.isArray_stable _ (by rw [hcx]; exact ValidVal.of_lookup h c _ hcl)]
    exact hj ht

theorem jobsCount_stable {h h' : Heap} (p : Preserves h h') (tp : Val)
    (ho : TaskRecOk h tp) : jobsCount h' tp = jobsCount h tp := by
  obtain ⟨⟨a, fs, rfl, hl⟩, hj⟩ := ho
  have hgf : h'.getField (.ref a) "jobs" = h.getField (.ref a) "jobs" :=
    p.getField_stable _ (ValidVal.of_lookup h a _ hl) "jobs" (by decide)
  unfold jobsCount
  rw [hgf]
  by_cases ht : truthy (h.getField (.ref a) "jobs") = true
  · rw [if_pos ht, if_pos ht]
    obtain ⟨c, xs, hcx, hcl⟩ := isArray_inv h _ (hj ht)
    rw [p.elems_stable _ (by rw [hcx]; exact ValidVal.of_lookup h c _ hcl)]
  · rw [if_neg ht, if_neg ht]

theorem processJobs_kinds (js : List Val) (h : Heap) (lm : Val) :
    (processJobs h lm js).2.map TreeOp.kind =
      List.replicate js.length OpKind.addJob := by
  induction js generalizing h with
  | nil => rfl
  | cons j js ih =>
    have hsplit : processJobs h lm (j :: js) =
        ((processJobs (createJobNode h j lm).1 lm js).1,
         .addJob (createJobNode h j lm).2 ::
           (processJobs (createJobNode h j lm).1 lm js).2) := rfl
    rw [hsplit, List.length_cons, List.replicate_succ]
    simp only [List.map_cons, TreeOp.kind]
    rw [ih]

theorem processCyclePoints_kinds (l : List Val) (h : Heap) :
    (processCyclePoints h l).2.map TreeOp.kind =
      List.replicate l.length OpKind.addCyclePoint := by
  induction l generalizing h with
  | nil => rfl
  | cons cp cps ih =>
    have hsplit : processCyclePoints h (cp :: cps) =
        ((processCyclePoints (createCyclePointNode h cp).1 cps).1,
         .addCyclePoint (createCyclePointNode h cp).2 ::
           (processCyclePoints (createCyclePointNode h cp).1 cps).2) := rfl
    rw [hsplit, List.length_cons, List.replicate_succ]
    simp only [List.map_cons, TreeOp.kind]
    rw [ih]

theorem processFamilyProxies_kinds (l : List Val) (h : Heap) :
    (processFamilyProxies h l).2.map TreeOp.kind =
      List.replicate l.length OpKind.addFamilyProxy := by
  induction l generalizing h with
  | nil => rfl
  | cons fp fps ih =>
    have hsplit : processFamilyProxies h (fp :: fps) =
        ((processFamilyProxies (createFamilyProxyNode h fp).1 fps).1,
         .addFamilyProxy (createFamilyProxyNode h fp).2 ::
           (processFamilyProxies (createFamilyProxyNode h fp).1 fps).2) := rfl
    rw [hsplit, List.length_cons, List.replicate_succ]
    simp only [List.map_cons, TreeOp.kind]
    rw [ih]

/-- The insertion calls of one iteration of the task-proxy loop, after
the `addTaskProxy` call itself. -/
def taskJobsOps (h : Heap) (tp : Val) : List TreeOp :=
  (if truthy ((createTaskProxyNode h tp).1.getField tp "jobs")
   then processJobs (createTaskProxyNode h tp).1
     ((createTaskProxyNode h tp).1.getField tp "latestMessage")
     ((createTaskProxyNode h tp).1.elems
       ((createTaskProxyNode h tp).1.getField tp "jobs"))
   else ((createTaskProxyNode h tp).1, ([] : List TreeOp))).2

theorem processTaskProxies_cons_eq (h : Heap) (tp : Val) (tps : List Val) :
    processTaskProxies h (tp :: tps) =
      ((processTaskProxies (taskJobsHeap h tp) tps).1,
       .addTaskProxy (createTaskProxyNode h tp).2 ::
         (taskJobsOps h tp ++
           (processTaskProxies (taskJobsHeap h tp) tps).2)) := rfl

theorem taskJobsHeap_preserves (h : Heap) (tp : Val) :
    Preserves h (taskJobsHeap h tp) :=
  (createTaskProxyNode_preserves h tp).trans_pres (taskJobsHeap_extends h tp).toPreserves

theorem taskJobsOps_kinds (h : Heap) (tp : Val) (ho : TaskRecOk h tp) :
    (taskJobsOps h tp).map TreeOp.kind =
      List.replicate (jobsCount h tp) OpKind.addJob := by
  obtain ⟨⟨a, fs, rfl, hl⟩, hj⟩ := ho
  have hgf : (createTaskProxyNode h (.ref a)).1.getField (.ref a) "jobs"
      = h.getField (.ref a) "jobs" :=
    (createTaskProxyNode_preserves h _).getField_stable _
      (ValidVal.of_lookup h a _ hl) "jobs" (by decide)
  unfold taskJobsOps jobsCount
  rw [hgf]
  by_cases ht : truthy (h.getField (.ref a) "jobs") = true
  · rw [if_pos ht, if_pos ht]
    obtain ⟨c, xs, hcx, hcl⟩ := isArray_inv h _ (hj ht)
    rw [processJobs_kinds,
      (createTaskProxyNode_preserves h _).elems_stable _
        (by rw [hcx]; exact ValidVal.of_lookup h c _ hcl)]
  · rw [if_neg ht, if_neg ht]
    rfl

theorem processTaskProxies_kinds (l : List Val) (h : Heap)
    (hok : ∀ tp ∈ l, TaskRecOk h tp) :
    (processTaskProxies h l).2.map TreeOp.kind =
      (l.map (fun tp => OpKind.addTaskProxy ::
        List.replicate (jobsCount h tp) OpKind.addJob)).flatten := by
  induction l generalizing h with
  | nil => rfl
  | cons tp tps ih =>
    rw [processTaskProxies_cons_eq]
    simp only [List.map_cons, List.map_append, TreeOp.kind, List.flatten]
    rw [taskJobsOps_kinds h tp (hok tp (List.mem_cons_self tp tps))]
    have hok' : ∀ tp' ∈ tps, TaskRecOk (taskJobsHeap h tp) tp' :=
      fun tp' htp' => (hok tp' (List.mem_cons_of_mem tp htp')).mono
        (taskJobsHeap_preserves h tp) tp'
    rw [ih (taskJobsHeap h tp) hok']
    have hmap : List.map (fun tp' => OpKind.addTaskProxy ::
          List.replicate (jobsCount (taskJobsHeap h tp) tp') OpKind.addJob) tps
        = List.map (fun tp' => OpKind.addTaskProxy ::
          List.replicate (jobsCount h tp') OpKind.addJob) tps := by
      apply List.map_congr_left
      intro tp' htp'
      rw [jobsCount_stable (taskJobsHeap_preserves h tp) tp'
        (hok tp' (List.mem_cons_of_mem tp htp'))]
    rw [hmap]
    rfl

/-- C1: for every workflow accepted by the validator (with task proxies
that are object records whose `jobs`, when truthy, is an array, as in
all GraphQL data), the population run performs exactly one
`setWorkflow`, then one `addCyclePoint` per cycle point in input order,
then one `addFamilyProxy` per family proxy in input order, then, for
each task proxy in input order, one `addTaskProxy` immediately followed
by one `addJob` per element of that task proxy's `jobs` array in input
order — and nothing else. -/
theorem populate_trace (h : Heap) (tree w : Val)
    (htree : truthy tree = true)
    (hctd : containsTreeData h w = .bool true)
    (htp : ∀ tp ∈ h.elems (h.getField w "taskProxies"), TaskRecOk h tp) :
    ∃ h' ops, populateTreeFromGraphQLData h tree w = .ok (h', ops) ∧
      ops.map TreeOp.kind =
        OpKind.setWorkflow ::
        (List.replicate (h.elems (h.getField w "cyclePoints")).length
            OpKind.addCyclePoint ++
         (List.replicate (h.elems (h.getField w "familyProxies")).length
             OpKind.addFamilyProxy ++
          ((h.elems (h.getField w "taskProxies")).map (fun tp =>
            OpKind.addTaskProxy ::
              List.replicate (jobsCount h tp) OpKind.addJob)).flatten)) := by
  obtain ⟨hwu, hwn, hcpA, hfpA, htpA⟩ := (containsTreeData_eq_true h w).mp hctd
  obtain ⟨b, gs, hwb, hwr⟩ := getField_record_inv h w "taskProxies"
    (isArray_ne_undef h _ htpA)
  have hw : truthy w = true := by rw [hwb]; rfl
  have hvw : ValidVal h w := by
    rw [hwb]
    exact ValidVal.of_lookup h b _ hwr
  have hct : truthy (containsTreeData h w) = true :=
    (containsTreeData_truthy_iff h w).mpr hctd
  refine ⟨(popTp h w).1, _, populate_eq_ok h tree w htree hw hct, ?_⟩
  obtain ⟨c1, xs1, hc1, hl1⟩ := isArray_inv h _ hcpA
  obtain ⟨c2, xs2, hc2, hl2⟩ := isArray_inv h _ hfpA
  obtain ⟨c3, xs3, hc3, hl3⟩ := isArray_inv h _ htpA
  have hv1 : ValidVal h (h.getField w "cyclePoints") := by
    rw [hc1]
    exact ValidVal.of_lookup h c1 _ hl1
  have hv2 : ValidVal h (h.getField w "familyProxies") := by
    rw [hc2]
    exact ValidVal.of_lookup h c2 _ hl2
  have hv3 : ValidVal h (h.getField w "taskProxies") := by
    rw [hc3]
    exact ValidVal.of_lookup h c3 _ hl3
  have e1 : Extends h (popH1 h w) := createWorkflowNode_extends h w
  have e2 : Extends h (popCp h w).1 := e1.trans_ext (processCyclePoints_extends _ _)
  have e3 : Extends h (popFp h w).1 := popFp_extends h w
  have hcpl : (popH1 h w).elems ((popH1 h w).getField w "cyclePoints")
      = h.elems (h.getField w "cyclePoints") := by
    rw [Extends.getField_eq e1 w hvw "cyclePoints",
      e1.toPreserves.elems_stable _ hv1]
  have hfpl : (popCp h w).1.elems ((popCp h w).1.getField w "familyProxies")
      = h.elems (h.getField w "familyProxies") := by
    rw [Extends.getField_eq e2 w hvw "familyProxies",
      e2.toPreserves.elems_stable _ hv2]
  have htpl : (popFp h w).1.elems ((popFp h w).1.getField w "taskProxies")
      = h.elems (h.getField w "taskProxies") := by
    rw [Extends.getField_eq e3 w hvw "taskProxies",
      e3.toPreserves.elems_stable _ hv3]
  have t1 : (popCp h w).2.map TreeOp.kind =
      List.replicate (h.elems (h.getField w "cyclePoints")).length
        OpKind.addCyclePoint := by
    show (processCyclePoints (popH1 h w) _).2.map TreeOp.kind = _
    rw [processCyclePoints_kinds, hcpl]
  have t2 : (popFp h w).2.map TreeOp.kind =
      List.replicate (h.elems (h.getField w "familyProxies")).length
        OpKind.addFamilyProxy := by
    show (processFamilyProxies (popCp h w).1 _).2.map TreeOp.kind = _
    rw [processFamilyProxies_kinds, hfpl]
  have hok : ∀ tp ∈ (popFp h w).1.elems ((popFp h w).1.getField w "taskProxies"),
      TaskRecOk (popFp h w).1 tp := by
    intro tp htpm
    rw [htpl] at htpm
    exact (htp tp htpm).mono e3.toPreserves tp
  have t3 : (popTp h w).2.map TreeOp.kind =
      ((h.elems (h.getField w "taskProxies")).map (fun tp =>
        OpKind.addTaskProxy ::
          List.replicate (jobsCount h tp) OpKind.addJob)).flatten := by
    show (processTaskProxies (popFp h w).1 _).2.map TreeOp.kind = _
    rw [processTaskProxies_kinds _ _ hok, htpl]
    congr 1
    apply List.map_congr_left
    intro tp htpm
    rw [jobsCount_stable e3.toPreserves tp (htp tp htpm)]
  simp only [List.map_cons, List.map_append, TreeOp.kind]
  rw [t1, t2, t3]

/-- Witness for C1: on the demonstration workflow the population run
succeeds with the insertion order `setWorkflow`, `addCyclePoint`,
`addFamilyProxy`, `addTaskProxy`, `addJob`. -/
theorem populate_trace_witness :
    ∃ h' ops, populateTreeFromGraphQLData exHeap (.ref 9) (.ref 8)
        = .ok (h', ops) ∧
      ops.map TreeOp.kind =
        OpKind.setWorkflow ::
        (List.replicate (exHeap.elems (exHeap.getField (.ref 8) "cyclePoints")).length
            OpKind.addCyclePoint ++
         (List.replicate (exHeap.elems (exHeap.getField (.ref 8) "familyProxies")).length
             OpKind.addFamilyProxy ++
          ((exHeap.elems (exHeap.getField (.ref 8) "taskProxies")).map (fun tp =>
            OpKind.addTaskProxy ::
              List.replicate (jobsCount exHeap tp) OpKind.addJob)).flatten)) := by
  refine populate_trace exHeap (.ref 9) (.ref 8) (by decide) (by decide) ?_
  intro tp htpm
  have hlist : exHeap.elems (exHeap.getField (.ref 8) "taskProxies")
      = [.ref 6] := by decide
  rw [hlist] at htpm
  have htp6 : tp = .ref 6 := List.mem_singleton.mp htpm
  subst htp6
  exact ⟨⟨6, [("id", .str "t1"), ("latestMessage", .str "hello"),
    ("jobs", .ref 5)], rfl, by decide⟩, fun _ => by decide⟩

/-! ## Determinism of node identity -/

/-- The list of jobs the population loop iterates for one task proxy. -/
def jobsList (h : Heap) (tp : Val) : List Val :=
  if truthy (h.getField tp "jobs") then h.elems (h.getField tp "jobs")
  else []

theorem jobsList_stable {h h' : Heap} (p : Preserves h h') (tp : Val)
    (ho : TaskRecOk h tp) : jobsList h' tp = jobsList h tp := by
  obtain ⟨⟨a, fs, rfl, hl⟩, hj⟩ := ho
  have hgf : h'.getField (.ref a) "jobs" = h.getField (.ref a) "jobs" :=
    p.getField_stable _ (ValidVal.of_lookup h a _ hl) "jobs" (by decide)
  unfold jobsList
  rw [hgf]
  by_cases ht : truthy (h.getField (.ref a) "jobs") = true
  · rw [if_pos ht, if_pos ht]
    obtain ⟨c, xs, hcx, hcl⟩ := isArray_inv h _ (hj ht)
    rw [p.elems_stable _ (by rw [hcx]; exact ValidVal.of_lookup h c _ hcl)]
  · rw [if_neg ht, if_neg ht]

theorem createWorkflowNode_snd (h : Heap) (w : Val) :
    (createWorkflowNode h w).2 = .ref (h.objs.length + 1) := by
  rw [createWorkflowNode_eq]

theorem createWorkflowNode_result_lookup (h : Heap) (w : Val) :
    (createWorkflowNode h w).1.lookup (h.objs.length + 1) =
      some (.record [("id", h.getField w "id"), ("type", .str "workflow"),
        ("node", w), ("children", .ref h.objs.length)]) := by
  rw [createWorkflowNode_eq]
  have := Heap.lookup_append_add h.objs
    [.array [],
     .record [("id", h.getField w "id"), ("type", .str "workflow"),
              ("node", w), ("children", .ref h.objs.length)]] 1
  simpa using this

theorem createCyclePointNode_snd (h : Heap) (cp : Val) :
    (createCyclePointNode h cp).2 = .ref (h.objs.length + 3) := by
  rw [createCyclePointNode_eq]

theorem createCyclePointNode_result_lookup (h : Heap) (cp : Val) :
    (createCyclePointNode h cp).1.lookup (h.objs.length + 3) =
      some (.record [("id", h.getField cp "cyclePoint"),
        ("type", .str "cyclepoint"),
        ("node", .ref h.objs.length),
        ("children", .ref (h.objs.length + 1)),
        ("size", .num TREE_ITEM_SIZE),
        ("state", .ref (h.objs.length + 2))]) := by
  rw [createCyclePointNode_eq]
  have := Heap.lookup_append_add h.objs
    [.record [("id", h.getField cp "cyclePoint"),
              ("name", h.getField cp "cyclePoint")],
     .array [],
     .record [("open", .bool true)],
     .record [("id", h.getField cp "cyclePoint"),
              ("type", .str "cyclepoint"),
              ("node", .ref h.objs.length),
              ("children", .ref (h.objs.length + 1)),
              ("size", .num TREE_ITEM_SIZE),
              ("state", .ref (h.objs.length + 2))]] 3
  simpa using this

theorem createFamilyProxyNode_snd (h : Heap) (fp : Val) :
    (createFamilyProxyNode h fp).2 = .ref (h.objs.length + 2) := by
  rw [createFamilyProxyNode_eq]

theorem createFamilyProxyNode_result_lookup (h : Heap) (fp : Val) :
    (createFamilyProxyNode h fp).1.lookup (h.objs.length + 2) =
      some (.record [("id", h.getField fp "id"),
        ("type", .str "family-proxy"),
        ("node", fp),
        ("children", .ref h.objs.length),
        ("size", .num TREE_ITEM_SIZE),
        ("state", .ref (h.objs.length + 1))]) := by
  rw [createFamilyProxyNode_eq]
  have := Heap.lookup_append_add h.objs
    [.array [],
     .record [("open", .bool true)],
     .record [("id", h.getField fp "id"),
              ("type", .str "family-proxy"),
              ("node", fp),
              ("children", .ref h.objs.length),
              ("size", .num TREE_ITEM_SIZE),
              ("state", .ref (h.objs.length + 1))]] 2
  simpa using this

theorem createTaskProxyNode_snd (h : Heap) (tp : Val) :
    (createTaskProxyNode h tp).2 =
      .ref ((taskStateHeap h tp).objs.length + 2) := by
  rw [createTaskProxyNode_eq]

theorem createTaskProxyNode_result_lookup (h : Heap) (tp : Val) :
    (createTaskProxyNode h tp).1.lookup
        ((taskStateHeap h tp).objs.length + 2) =
      some (.record [("id", (taskStateHeap h tp).getField tp "id"),
        ("type", .str "task-proxy"),
        ("node", tp),
        ("children", .ref (taskStateHeap h tp).objs.length),
        ("size", .num TREE_ITEM_SIZE),
        ("state", .ref ((taskStateHeap h tp).objs.length + 1))]) := by
  rw [createTaskProxyNode_eq]
  have := Heap.lookup_append_add (taskStateHeap h tp).objs
    [.array [],
     .record [("open", .bool false)],
     .record [("id", (taskStateHeap h tp).getField tp "id"),
              ("type", .str "task-proxy"),
              ("node", tp),
              ("children", .ref (taskStateHeap h tp).objs.length),
              ("size", .num TREE_ITEM_SIZE),
              ("state", .ref ((taskStateHeap h tp).objs.length + 1))]] 2
  simpa using this

theorem createWorkflowNode_id (h : Heap) (w : Val) :
    (createWorkflowNode h w).1.getField (createWorkflowNode h w).2 "id"
      = h.getField w "id" := by
  rw [createWorkflowNode_snd]
  simp [Heap.getField, createWorkflowNode_result_lookup h w, lookupField]

theorem createCyclePointNode_id (h : Heap) (cp : Val) :
    (createCyclePointNode h cp).1.getField (createCyclePointNode h cp).2 "id"
      = h.getField cp "cyclePoint" := by
  rw [createCyclePointNode_snd]
  simp [Heap.getField, createCyclePointNode_result_lookup h cp, lookupField]

theorem createFamilyProxyNode_id (h : Heap) (fp : Val) :
    (createFamilyProxyNode h fp).1.getField (createFamilyProxyNode h fp).2 "id"
      = h.getField fp "id" := by
  rw [createFamilyProxyNode_snd]
  simp [Heap.getField, createFamilyProxyNode_result_lookup h fp, lookupField]

theorem createTaskProxyNode_id (h : Heap) (tp : Val) (a : Addr)
    (fs : List (String × Val)) (htp : tp = .ref a)
    (hl : h.lookup a = some (.record fs)) :
    (createTaskProxyNode h tp).1.getField (createTaskProxyNode h tp).2 "id"
      = h.getField tp "id" := by
  rw [createTaskProxyNode_snd]
  have hmid : (taskStateHeap h tp).getField tp "id" = h.getField tp "id" := by
    refine (taskStateHeap_preserves h tp).getField_stable tp ?_ "id" (by decide)
    rw [htp]
    exact ValidVal.of_lookup h a _ hl
  have hnode : (createTaskProxyNode h tp).1.getField
      (.ref ((taskStateHeap h tp).objs.length + 2)) "id"
      = (taskStateHeap h tp).getField tp "id" := by
    simp [Heap.getField, createTaskProxyNode_result_lookup h tp, lookupField]
  rw [hnode, hmid]

theorem createJobNode_id (h : Heap) (j lm : Val) :
    (createJobNode h j lm).1.getField (createJobNode h j lm).2 "id"
      = h.getField j "id" := by
  rw [createJobNode_snd]
  simp [Heap.getField, createJobNode_result_lookup h j lm, lookupField]

theorem processCyclePoints_ids (l : List Val) (h : Heap)
    (hv : ∀ c ∈ l, ValidVal h c) (hf : Heap)
    (pf : Preserves (processCyclePoints h l).1 hf) :
    (processCyclePoints h l).2.map (fun op => hf.getField op.node "id") =
      l.map (fun c => h.getField c "cyclePoint") := by
  induction l generalizing h with
  | nil => rfl
  | cons c cs ih =>
    have hsplit : processCyclePoints h (c :: cs) =
        ((processCyclePoints (createCyclePointNode h c).1 cs).1,
         .addCyclePoint (createCyclePointNode h c).2 ::
           (processCyclePoints (createCyclePointNode h c).1 cs).2) := rfl
    rw [hsplit]
    have p1 : Preserves (createCyclePointNode h c).1 hf :=
      (processCyclePoints_extends (createCyclePointNode h c).1 cs).toPreserves.trans_pres pf
    have hhead : hf.getField (createCyclePointNode h c).2 "id"
        = h.getField c "cyclePoint" := by
      rw [createCyclePointNode_snd,
        p1.getField_stable _ (ValidVal.of_lookup _ _ _
          (createCyclePointNode_result_lookup h c)) "id" (by decide),
        ← createCyclePointNode_snd h c]
      exact createCyclePointNode_id h c
    have htail :
        (processCyclePoints (createCyclePointNode h c).1 cs).2.map
          (fun op => hf.getField op.node "id") =
        cs.map (fun c' => h.getField c' "cyclePoint") := by
      rw [ih (createCyclePointNode h c).1
        (fun c' hc' => (createCyclePointNode_extends h c).toPreserves.validVal c'
          (hv c' (List.mem_cons_of_mem c hc'))) pf]
      apply List.map_congr_left
      intro c' hc'
      exact Extends.getField_eq (createCyclePointNode_extends h c) c'
        (hv c' (List.mem_cons_of_mem c hc')) "cyclePoint"
    show hf.getField (createCyclePointNode h c).2 "id" ::
        (processCyclePoints (createCyclePointNode h c).1 cs).2.map
          (fun op => hf.getField op.node "id")
      = h.getField c "cyclePoint" :: cs.map (fun c' => h.getField c' "cyclePoint")
    rw [hhead, htail]

theorem processFamilyProxies_ids (l : List Val) (h : Heap)
    (hv : ∀ f ∈ l, ValidVal h f) (hf : Heap)
    (pf : Preserves (processFamilyProxies h l).1 hf) :
    (processFamilyProxies h l).2.map (fun op => hf.getField op.node "id") =
      l.map (fun f => h.getField f "id") := by
  induction l generalizing h with
  | nil => rfl
  | cons f fs ih =>
    have hsplit : processFamilyProxies h (f :: fs) =
        ((processFamilyProxies (createFamilyProxyNode h f).1 fs).1,
         .addFamilyProxy (createFamilyProxyNode h f).2 ::
           (processFamilyProxies (createFamilyProxyNode h f).1 fs).2) := rfl
    rw [hsplit]
    have p1 : Preserves (createFamilyProxyNode h f).1 hf :=
      (processFamilyProxies_extends (createFamilyProxyNode h f).1 fs).toPreserves.trans_pres pf
    have hhead : hf.getField (createFamilyProxyNode h f).2 "id"
        = h.getField f "id" := by
      rw [createFamilyProxyNode_snd,
        p1.getField_stable _ (ValidVal.of_lookup _ _ _
          (createFamilyProxyNode_result_lookup h f)) "id" (by decide),
        ← createFamilyProxyNode_snd h f]
      exact createFamilyProxyNode_id h f
    have htail :
        (processFamilyProxies (createFamilyProxyNode h f).1 fs).2.map
          (fun op => hf.getField op.node "id") =
        fs.map (fun f' => h.getField f' "id") := by
      rw [ih (createFamilyProxyNode h f).1
        (fun f' hf' => (createFamilyProxyNode_extends h f).toPreserves.validVal f'
          (hv f' (List.mem_cons_of_mem f hf'))) pf]
      apply List.map_congr_left
      intro f' hf'
      exact Extends.getField_eq (createFamilyProxyNode_extends h f) f'
        (hv f' (List.mem_cons_of_mem f hf')) "id"
    show hf.getField (createFamilyProxyNode h f).2 "id" ::
        (processFamilyProxies (createFamilyProxyNode h f).1 fs).2.map
          (fun op => hf.getField op.node "id")
      = h.getField f "id" :: fs.map (fun f' => h.getField f' "id")
    rw [hhead, htail]

theorem processJobs_ids (js : List Val) (h : Heap) (lm : Val)
    (hv : ∀ j ∈ js, ValidVal h j) (hf : Heap)
    (pf : Preserves (processJobs h lm js).1 hf) :
    (processJobs h lm js).2.map (fun op => hf.getField op.node "id") =
      js.map (fun j => h.getField j "id") := by
  induction js generalizing h with
  | nil => rfl
  | cons j js ih =>
    have hsplit : processJobs h lm (j :: js) =
        ((processJobs (createJobNode h j lm).1 lm js).1,
         .addJob (createJobNode h j lm).2 ::
           (processJobs (createJobNode h j lm).1 lm js).2) := rfl
    rw [hsplit]
    have p1 : Preserves (createJobNode h j lm).1 hf :=
      (processJobs_extends (createJobNode h j lm).1 lm js).toPreserves.trans_pres pf
    have hhead : hf.getField (createJobNode h j lm).2 "id"
        = h.getField j "id" := by
      rw [createJobNode_snd,
        p1.getField_stable _ (ValidVal.of_lookup _ _ _
          (createJobNode_result_lookup h j lm)) "id" (by decide),
        ← createJobNode_snd h j lm]
      exact createJobNode_id h j lm
    have htail :
        (processJobs (createJobNode h j lm).1 lm js).2.map
          (fun op => hf.getField op.node "id") =
        js.map (fun j' => h.getField j' "id") := by
      rw [ih (createJobNode h j lm).1
        (fun j' hj' => (createJobNode_extends h j lm).toPreserves.validVal j'
          (hv j' (List.mem_cons_of_mem j hj'))) pf]
      apply List.map_congr_left
      intro j' hj'
      exact Extends.getField_eq (createJobNode_extends h j lm) j'
        (hv j' (List.mem_cons_of_mem j hj')) "id"
    show hf.getField (createJobNode h j lm).2 "id" ::
        (processJobs (createJobNode h j lm).1 lm js).2.map
          (fun op => hf.getField op.node "id")
      = h.getField j "id" :: js.map (fun j' => h.getField j' "id")
    rw [hhead, htail]

theorem taskJobsOps_ids (h : Heap) (tp : Val) (ho : TaskRecOk h tp)
    (hjv : ∀ j ∈ jobsList h tp, ValidVal h j) (hf : Heap)
    (pf : Preserves (taskJobsHeap h tp) hf) :
    (taskJobsOps h tp).map (fun op => hf.getField op.node "id") =
      (jobsList h tp).map (fun j => h.getField j "id") := by
  obtain ⟨⟨a, fs, htpa, hl⟩, hj⟩ := ho
  subst htpa
  have ppre := createTaskProxyNode_preserves h (Val.ref a)
  have hgf : (createTaskProxyNode h (.ref a)).1.getField (.ref a) "jobs"
      = h.getField (.ref a) "jobs" :=
    ppre.getField_stable _ (ValidVal.of_lookup h a _ hl) "jobs" (by decide)
  by_cases ht : truthy (h.getField (.ref a) "jobs") = true
  · obtain ⟨c, xs, hcx, hcl⟩ := isArray_inv h _ (hj ht)
    have hel : (createTaskProxyNode h (.ref a)).1.elems
        (h.getField (.ref a) "jobs") = h.elems (h.getField (.ref a) "jobs") :=
      ppre.elems_stable _ (by rw [hcx]; exact ValidVal.of_lookup h c _ hcl)
    have hjl : jobsList h (.ref a) = h.elems (h.getField (.ref a) "jobs") := by
      unfold jobsList
      rw [if_pos ht]
    have hcond : truthy ((createTaskProxyNode h (.ref a)).1.getField
        (.ref a) "jobs") = true := by
      rw [hgf]
      exact ht
    have hjoeq : taskJobsOps h (.ref a) =
        (processJobs (createTaskProxyNode h (.ref a)).1
          ((createTaskProxyNode h (.ref a)).1.getField (.ref a) "latestMessage")
          ((createTaskProxyNode h (.ref a)).1.elems
            ((createTaskProxyNode h (.ref a)).1.getField (.ref a) "jobs"))).2 := by
      unfold taskJobsOps
      rw [if_pos hcond]
    have hjheq : taskJobsHeap h (.ref a) =
        (processJobs (createTaskProxyNode h (.ref a)).1
          ((createTaskProxyNode h (.ref a)).1.getField (.ref a) "latestMessage")
          ((createTaskProxyNode h (.ref a)).1.elems
            ((createTaskProxyNode h (.ref a)).1.getField (.ref a) "jobs"))).1 := by
      unfold taskJobsHeap
      rw [if_pos hcond]
    rw [hjoeq]
    rw [hjheq] at pf
    have hv' : ∀ j ∈ (createTaskProxyNode h (.ref a)).1.elems
        ((createTaskProxyNode h (.ref a)).1.getField (.ref a) "jobs"),
        ValidVal (createTaskProxyNode h (.ref a)).1 j := by
      intro j hjm
      rw [hgf, hel] at hjm
      exact ppre.validVal j (hjv j (by rw [hjl]; exact hjm))
    rw [processJobs_ids _ _ _ hv' hf pf, hgf, hel, ← hjl]
    apply List.map_congr_left
    intro j hjm
    exact ppre.getField_stable j (hjv j hjm) "id" (by decide)
  · have hcond : ¬ truthy ((createTaskProxyNode h (.ref a)).1.getField
        (.ref a) "jobs") = true := by
      rw [hgf]
      exact ht
    have hjoeq : taskJobsOps h (.ref a) = [] := by
      unfold taskJobsOps
      rw [if_neg hcond]
    have hjl : jobsList h (.ref a) = [] := by
      unfold jobsList
      rw [if_neg ht]
    rw [hjoeq, hjl]
    rfl

theorem processTaskProxies_ids (l : List Val) (h : Heap)
    (hok : ∀ tp ∈ l, TaskRecOk h tp ∧
      ∀ j ∈ jobsList h tp, ValidVal h j)
    (hf : Heap) (pf : Preserves (processTaskProxies h l).1 hf) :
    (processTaskProxies h l).2.map (fun op => hf.getField op.node "id") =
      (l.map (fun tp => h.getField tp "id" ::
        (jobsList h tp).map (fun j => h.getField j "id"))).flatten := by
  induction l generalizing h with
  | nil => rfl
  | cons tp tps ih =>
    obtain ⟨⟨⟨a, fs, htpa, hl⟩, hj⟩, hjv⟩ := hok tp (List.mem_cons_self tp tps)
    rw [processTaskProxies_cons_eq]
    have prest : Preserves (taskJobsHeap h tp) hf :=
      (processTaskProxies_preserves (taskJobsHeap h tp) tps).trans_pres pf
    have p1 : Preserves (createTaskProxyNode h tp).1 hf :=
      (taskJobsHeap_extends h tp).toPreserves.trans_pres prest
    have hhead : hf.getField (createTaskProxyNode h tp).2 "id"
        = h.getField tp "id" := by
      rw [createTaskProxyNode_snd,
        p1.getField_stable _ (ValidVal.of_lookup _ _ _
          (createTaskProxyNode_result_lookup h tp)) "id" (by decide),
        ← createTaskProxyNode_snd h tp]
      exact createTaskProxyNode_id h tp a fs htpa hl
    have hjobs := taskJobsOps_ids h tp ⟨⟨a, fs, htpa, hl⟩, hj⟩ hjv hf prest
    have hok' : ∀ tp' ∈ tps, TaskRecOk (taskJobsHeap h tp) tp' ∧
        ∀ j ∈ jobsList (taskJobsHeap h tp) tp',
          ValidVal (taskJobsHeap h tp) j := by
      intro tp' htp'
      obtain ⟨ho', hv'⟩ := hok tp' (List.mem_cons_of_mem tp htp')
      refine ⟨ho'.mono (taskJobsHeap_preserves h tp) tp', ?_⟩
      intro j hjm
      rw [jobsList_stable (taskJobsHeap_preserves h tp) tp' ho'] at hjm
      exact (taskJobsHeap_preserves h tp).validVal j (hv' j hjm)
    have htail := ih (taskJobsHeap h tp) hok' pf
    have hmapeq : tps.map (fun tp' => (taskJobsHeap h tp).getField tp' "id" ::
          (jobsList (taskJobsHeap h tp) tp').map
            (fun j => (taskJobsHeap h tp).getField j "id"))
        = tps.map (fun tp' => h.getField tp' "id" ::
          (jobsList h tp').map (fun j => h.getField j "id")) := by
      apply List.map_congr_left
      intro tp' htp'
      obtain ⟨ho', hv'⟩ := hok tp' (List.mem_cons_of_mem tp htp')
      obtain ⟨⟨a', fs', htpa', hl'⟩, hj'⟩ := ho'
      have hid : (taskJobsHeap h tp).getField tp' "id" = h.getField tp' "id" := by
        refine (taskJobsHeap_preserves h tp).getField_stable tp' ?_ "id" (by decide)
        rw [htpa']
        exact ValidVal.of_lookup h a' _ hl'
      rw [hid, jobsList_stable (taskJobsHeap_preserves h tp) tp'
        ⟨⟨a', fs', htpa', hl'⟩, hj'⟩]
      congr 1
      apply List.map_congr_left
      intro j hjm
      exact (taskJobsHeap_preserves h tp).getField_stable j (hv' j hjm) "id"
        (by decide)
    show hf.getField (createTaskProxyNode h tp).2 "id" ::
        ((taskJobsOps h tp ++
          (processTaskProxies (taskJobsHeap h tp) tps).2).map
            (fun op => hf.getField op.node "id"))
      = (h.getField tp "id" ::
          (jobsList h tp).map (fun j => h.getField j "id")) ++
        (tps.map (fun tp' => h.getField tp' "id" ::
          (jobsList h tp').map (fun j => h.getField j "id"))).flatten
    rw [List.map_append, hhead, hjobs, htail, hmapeq]
    rfl

/-- The sequence of node ids a population run inserts, as determined by
the input records alone: the workflow's `id`, the cycle points'
`cyclePoint` values, the family proxies' `id`s, and each task proxy's
`id` followed by its jobs' `id`s. -/
def idSeq (h : Heap) (w : Val) : List Val :=
  h.getField w "id" ::
  ((h.elems (h.getField w "cyclePoints")).map
      (fun c => h.getField c "cyclePoint") ++
   ((h.elems (h.getField w "familyProxies")).map
       (fun f => h.getField f "id") ++
    ((h.elems (h.getField w "taskProxies")).map (fun tp =>
      h.getField tp "id" ::
        (jobsList h tp).map (fun j => h.getField j "id"))).flatten))

theorem populate_ids (h : Heap) (tree w : Val)
    (htree : truthy tree = true)
    (hctd : containsTreeData h w = .bool true)
    (hcp : ∀ c ∈ h.elems (h.getField w "cyclePoints"), ValidVal h c)
    (hfp : ∀ f ∈ h.elems (h.getField w "familyProxies"), ValidVal h f)
    (htp : ∀ tp ∈ h.elems (h.getField w "taskProxies"), TaskRecOk h tp ∧
      ∀ j ∈ jobsList h tp, ValidVal h j) :
    populateTreeFromGraphQLData h tree w =
      .ok ((popTp h w).1,
        .setWorkflow (createWorkflowNode h w).2 ::
          ((popCp h w).2 ++ ((popFp h w).2 ++ (popTp h w).2))) ∧
    (.setWorkflow (createWorkflowNode h w).2 ::
      ((popCp h w).2 ++ ((popFp h w).2 ++ (popTp h w).2))).map
        (fun op => (popTp h w).1.getField op.node "id") = idSeq h w := by
  obtain ⟨hwu, hwn, hcpA, hfpA, htpA⟩ := (containsTreeData_eq_true h w).mp hctd
  obtain ⟨b, gs, hwb, hwr⟩ := getField_record_inv h w "taskProxies"
    (isArray_ne_undef h _ htpA)
  have hw : truthy w = true := by rw [hwb]; rfl
  have hvw : ValidVal h w := by
    rw [hwb]
    exact ValidVal.of_lookup h b _ hwr
  have hct : truthy (containsTreeData h w) = true :=
    (containsTreeData_truthy_iff h w).mpr hctd
  refine ⟨populate_eq_ok h tree w htree hw hct, ?_⟩
  obtain ⟨c1, xs1, hc1, hl1⟩ := isArray_inv h _ hcpA
  obtain ⟨c2, xs2, hc2, hl2⟩ := isArray_inv h _ hfpA
  obtain ⟨c3, xs3, hc3, hl3⟩ := isArray_inv h _ htpA
  have hv1 : ValidVal h (h.getField w "cyclePoints") := by
    rw [hc1]
    exact ValidVal.of_lookup h c1 _ hl1
  have hv2 : ValidVal h (h.getField w "familyProxies") := by
    rw [hc2]
    exact ValidVal.of_lookup h c2 _ hl2
  have hv3 : ValidVal h (h.getField w "taskProxies") := by
    rw [hc3]
    exact ValidVal.of_lookup h c3 _ hl3
  have e1 : Extends h (popH1 h w) := createWorkflowNode_extends h w
  have e2 : Extends h (popCp h w).1 := e1.trans_ext (processCyclePoints_extends _ _)
  have e3 : Extends h (popFp h w).1 := popFp_extends h w
  have hcpl : (popH1 h w).elems ((popH1 h w).getField w "cyclePoints")
      = h.elems (h.getField w "cyclePoints") := by
    rw [Extends.getField_eq e1 w hvw "cyclePoints",
      e1.toPreserves.elems_stable _ hv1]
  have hfpl : (popCp h w).1.elems ((popCp h w).1.getField w "familyProxies")
      = h.elems (h.getField w "familyProxies") := by
    rw [Extends.getField_eq e2 w hvw "familyProxies",
      e2.toPreserves.elems_stable _ hv2]
  have htpl : (popFp h w).1.elems ((popFp h w).1.getField w "taskProxies")
      = h.elems (h.getField w "taskProxies") := by
    rw [Extends.getField_eq e3 w hvw "taskProxies",
      e3.toPreserves.elems_stable _ hv3]
  have pTp : Preserves (popFp h w).1 (popTp h w).1 :=
    processTaskProxies_preserves (popFp h w).1
      ((popFp h w).1.elems ((popFp h w).1.getField w "taskProxies"))
  have pCp : Preserves (popCp h w).1 (popTp h w).1 :=
    ((processFamilyProxies_extends (popCp h w).1
      ((popCp h w).1.elems
        ((popCp h w).1.getField w "familyProxies"))).toPreserves).trans_pres pTp
  have pH1 : Preserves (popH1 h w) (popTp h w).1 :=
    ((processCyclePoints_extends (popH1 h w)
      ((popH1 h w).elems
        ((popH1 h w).getField w "cyclePoints"))).toPreserves).trans_pres pCp
  have hhead : (popTp h w).1.getField (createWorkflowNode h w).2 "id"
      = h.getField w "id" := by
    rw [createWorkflowNode_snd,
      pH1.getField_stable _ (ValidVal.of_lookup _ _ _
        (createWorkflowNode_result_lookup h w)) "id" (by decide),
      ← createWorkflowNode_snd h w]
    exact createWorkflowNode_id h w
  have hcpids : (popCp h w).2.map
      (fun op => (popTp h w).1.getField op.node "id") =
      (h.elems (h.getField w "cyclePoints")).map
        (fun c => h.getField c "cyclePoint") := by
    show (processCyclePoints (popH1 h w)
      ((popH1 h w).elems ((popH1 h w).getField w "cyclePoints"))).2.map
        (fun op => (popTp h w).1.getField op.node "id") = _
    rw [processCyclePoints_ids _ (popH1 h w)
      (fun c hc => e1.toPreserves.validVal c (hcp c (by rwa [hcpl] at hc)))
      (popTp h w).1 pCp, hcpl]
    apply List.map_congr_left
    intro c hc
    exact Extends.getField_eq e1 c (hcp c hc) "cyclePoint"
  have hfpids : (popFp h w).2.map
      (fun op => (popTp h w).1.getField op.node "id") =
      (h.elems (h.getField w "familyProxies")).map
        (fun f => h.getField f "id") := by
    show (processFamilyProxies (popCp h w).1
      ((popCp h w).1.elems ((popCp h w).1.getField w "familyProxies"))).2.map
        (fun op => (popTp h w).1.getField op.node "id") = _
    rw [processFamilyProxies_ids _ (popCp h w).1
      (fun f hfm => e2.toPreserves.validVal f (hfp f (by rwa [hfpl] at hfm)))
      (popTp h w).1 pTp, hfpl]
    apply List.map_congr_left
    intro f hfm
    exact Extends.getField_eq e2 f (hfp f hfm) "id"
  have htpids : (popTp h w).2.map
      (fun op => (popTp h w).1.getField op.node "id") =
      ((h.elems (h.getField w "taskProxies")).map (fun tp =>
        h.getField tp "id" ::
          (jobsList h tp).map (fun j => h.getField j "id"))).flatten := by
    have hok3 : ∀ tp ∈ (popFp h w).1.elems
        ((popFp h w).1.getField w "taskProxies"),
        TaskRecOk (popFp h w).1 tp ∧
        ∀ j ∈ jobsList (popFp h w).1 tp, ValidVal (popFp h w).1 j := by
      intro tp htpm
      rw [htpl] at htpm
      obtain ⟨ho, hv⟩ := htp tp htpm
      refine ⟨ho.mono e3.toPreserves tp, ?_⟩
      intro j hjm
      rw [jobsList_stable e3.toPreserves tp ho] at hjm
      exact e3.toPreserves.validVal j (hv j hjm)
    show (processTaskProxies (popFp h w).1
      ((popFp h w).1.elems ((popFp h w).1.getField w "taskProxies"))).2.map
        (fun op => (popTp h w).1.getField op.node "id") = _
    rw [processTaskProxies_ids _ (popFp h w).1 hok3 (popTp h w).1
      (Preserves.refl_pres _), htpl]
    congr 1
    apply List.map_congr_left
    intro tp htpm
    obtain ⟨ho, hv⟩ := htp tp htpm
    obtain ⟨⟨a', fs', htpa', hl'⟩, hj'⟩ := ho
    have hid : (popFp h w).1.getField tp "id" = h.getField tp "id" := by
      refine e3.toPreserves.getField_stable tp ?_ "id" (by decide)
      rw [htpa']
      exact ValidVal.of_lookup h a' _ hl'
    rw [hid, jobsList_stable e3.toPreserves tp ⟨⟨a', fs', htpa', hl'⟩, hj'⟩]
    congr 1
    apply List.map_congr_left
    intro j hjm
    exact e3.toPreserves.getField_stable j (hv j hjm) "id" (by decide)
  show (popTp h w).1.getField (createWorkflowNode h w).2 "id" ::
      ((popCp h w).2 ++ ((popFp h w).2 ++ (popTp h w).2)).map
        (fun op => (popTp h w).1.getField op.node "id") = idSeq h w
  rw [List.map_append, List.map_append, hhead, hcpids, hfpids, htpids]
  rfl

theorem idSeq_stable {h h' : Heap} (p : Preserves h h') (w : Val)
    (hvw : ValidVal h w)
    (hcpA : isArray h (h.getField w "cyclePoints") = true)
    (hfpA : isArray h (h.getField w "familyProxies") = true)
    (htpA : isArray h (h.getField w "taskProxies") = true)
    (hcp : ∀ c ∈ h.elems (h.getField w "cyclePoints"), ValidVal h c)
    (hfp : ∀ f ∈ h.elems (h.getField w "familyProxies"), ValidVal h f)
    (htp : ∀ tp ∈ h.elems (h.getField w "taskProxies"), TaskRecOk h tp ∧
      ∀ j ∈ jobsList h tp, ValidVal h j) :
    idSeq h' w = idSeq h w := by
  unfold idSeq
  have hid := p.getField_stable w hvw "id" (by decide)
  have hcpf := p.getField_stable w hvw "cyclePoints" (by decide)
  have hfpf := p.getField_stable w hvw "familyProxies" (by decide)
  have htpf := p.getField_stable w hvw "taskProxies" (by decide)
  obtain ⟨c1, xs1, hc1, hl1⟩ := isArray_inv h _ hcpA
  obtain ⟨c2, xs2, hc2, hl2⟩ := isArray_inv h _ hfpA
  obtain ⟨c3, xs3, hc3, hl3⟩ := isArray_inv h _ htpA
  have hel1 : h'.elems (h.getField w "cyclePoints")
      = h.elems (h.getField w "cyclePoints") :=
    p.elems_stable _ (by rw [hc1]; exact ValidVal.of_lookup h c1 _ hl1)
  have hel2 : h'.elems (h.getField w "familyProxies")
      = h.elems (h.getField w "familyProxies") :=
    p.elems_stable _ (by rw [hc2]; exact ValidVal.of_lookup h c2 _ hl2)
  have hel3 : h'.elems (h.getField w "taskProxies")
      = h.elems (h.getField w "taskProxies") :=
    p.elems_stable _ (by rw [hc3]; exact ValidVal.of_lookup h c3 _ hl3)
  rw [hid, hcpf, hfpf, htpf, hel1, hel2, hel3]
  have m1 : (h.elems (h.getField w "cyclePoints")).map
      (fun c => h'.getField c "cyclePoint")
      = (h.elems (h.getField w "cyclePoints")).map
      (fun c => h.getField c "cyclePoint") :=
    List.map_congr_left
      (fun c hc => p.getField_stable c (hcp c hc) "cyclePoint" (by decide))
  have m2 : (h.elems (h.getField w "familyProxies")).map
      (fun f => h'.getField f "id")
      = (h.elems (h.getField w "familyProxies")).map
      (fun f => h.getField f "id") :=
    List.map_congr_left
      (fun f hfm => p.getField_stable f (hfp f hfm) "id" (by decide))
  have m3 : (h.elems (h.getField w "taskProxies")).map
      (fun tp => h'.getField tp "id" ::
        (jobsList h' tp).map (fun j => h'.getField j "id"))
      = (h.elems (h.getField w "taskProxies")).map
      (fun tp => h.getField tp "id" ::
        (jobsList h tp).map (fun j => h.getField j "id")) := by
    apply List.map_congr_left
    intro tp htpm
    obtain ⟨ho, hv⟩ := htp tp htpm
    obtain ⟨⟨a', fs', htpa', hl'⟩, hj'⟩ := ho
    have hidtp : h'.getField tp "id" = h.getField tp "id" := by
      refine p.getField_stable tp ?_ "id" (by decide)
      rw [htpa']
      exact ValidVal.of_lookup h a' _ hl'
    rw [hidtp, jobsList_stable p tp ⟨⟨a', fs', htpa', hl'⟩, hj'⟩]
    congr 1
    apply List.map_congr_left
    intro j hjm
    exact p.getField_stable j (hv j hjm) "id" (by decide)
  rw [m1, m2, m3]

/-- C9: two successive population runs from the same workflow record
produce the same sequence of node ids in the same order — node identity
is derived deterministically from the input records' own identifier
fields, including when the second run observes the task-proxy `state`
fields the first run defaulted. -/
theorem populate_deterministic (h : Heap) (tree w : Val)
    (htree : truthy tree = true)
    (hctd : containsTreeData h w = .bool true)
    (hcp : ∀ c ∈ h.elems (h.getField w "cyclePoints"), ValidVal h c)
    (hfp : ∀ f ∈ h.elems (h.getField w "familyProxies"), ValidVal h f)
    (htp : ∀ tp ∈ h.elems (h.getField w "taskProxies"), TaskRecOk h tp ∧
      ∀ j ∈ jobsList h tp, ValidVal h j) :
    ∃ h1 ops1 h2 ops2,
      populateTreeFromGraphQLData h tree w = .ok (h1, ops1) ∧
      populateTreeFromGraphQLData h1 tree w = .ok (h2, ops2) ∧
      ops1.map (fun op => h1.getField op.node "id") =
        ops2.map (fun op => h2.getField op.node "id") := by
  obtain ⟨heq1, hids1⟩ := populate_ids h tree w htree hctd hcp hfp htp
  obtain ⟨hwu, hwn, hcpA, hfpA, htpA⟩ := (containsTreeData_eq_true h w).mp hctd
  obtain ⟨b, gs, hwb, hwr⟩ := getField_record_inv h w "taskProxies"
    (isArray_ne_undef h _ htpA)
  have hvw : ValidVal h w := by
    rw [hwb]
    exact ValidVal.of_lookup h b _ hwr
  have p : Preserves h (popTp h w).1 :=
    (popFp_extends h w).toPreserves.trans_pres (processTaskProxies_preserves _ _)
  have hcpf := p.getField_stable w hvw "cyclePoints" (by decide)
  have hfpf := p.getField_stable w hvw "familyProxies" (by decide)
  have htpf := p.getField_stable w hvw "taskProxies" (by decide)
  obtain ⟨c1, xs1, hc1, hl1⟩ := isArray_inv h _ hcpA
  obtain ⟨c2, xs2, hc2, hl2⟩ := isArray_inv h _ hfpA
  obtain ⟨c3, xs3, hc3, hl3⟩ := isArray_inv h _ htpA
  have hA1 : isArray (popTp h w).1
      ((popTp h w).1.getField w "cyclePoints") = true := by
    rw [hcpf, p.isArray_stable _ (by rw [hc1]; exact ValidVal.of_lookup h c1 _ hl1)]
    exact hcpA
  have hA2 : isArray (popTp h w).1
      ((popTp h w).1.getField w "familyProxies") = true := by
    rw [hfpf, p.isArray_stable _ (by rw [hc2]; exact ValidVal.of_lookup h c2 _ hl2)]
    exact hfpA
  have hA3 : isArray (popTp h w).1
      ((popTp h w).1.getField w "taskProxies") = true := by
    rw [htpf, p.isArray_stable _ (by rw [hc3]; exact ValidVal.of_lookup h c3 _ hl3)]
    exact htpA
  have hctd' : containsTreeData (popTp h w).1 w = .bool true :=
    (containsTreeData_eq_true _ w).mpr ⟨hwu, hwn, hA1, hA2, hA3⟩
  have hel1 : (popTp h w).1.elems ((popTp h w).1.getField w "cyclePoints")
      = h.elems (h.getField w "cyclePoints") := by
    rw [hcpf, p.elems_stable _ (by rw [hc1]; exact ValidVal.of_lookup h c1 _ hl1)]
  have hel2 : (popTp h w).1.elems ((popTp h w).1.getField w "familyProxies")
      = h.elems (h.getField w "familyProxies") := by
    rw [hfpf, p.elems_stable _ (by rw [hc2]; exact ValidVal.of_lookup h c2 _ hl2)]
  have hel3 : (popTp h w).1.elems ((popTp h w).1.getField w "taskProxies")
      = h.elems (h.getField w "taskProxies") := by
    rw [htpf, p.elems_stable _ (by rw [hc3]; exact ValidVal.of_lookup h c3 _ hl3)]
  have hcp' : ∀ c ∈ (popTp h w).1.elems
      ((popTp h w).1.getField w "cyclePoints"), ValidVal (popTp h w).1 c := by
    intro c hc
    rw [hel1] at hc
    exact p.validVal c (hcp c hc)
  have hfp' : ∀ f ∈ (popTp h w).1.elems
      ((popTp h w).1.getField w "familyProxies"), ValidVal (popTp h w).1 f := by
    intro f hfm
    rw [hel2] at hfm
    exact p.validVal f (hfp f hfm)
  have htp' : ∀ tp ∈ (popTp h w).1.elems
      ((popTp h w).1.getField w "taskProxies"),
      TaskRecOk (popTp h w).1 tp ∧
      ∀ j ∈ jobsList (popTp h w).1 tp, ValidVal (popTp h w).1 j := by
    intro tp htpm
    rw [hel3] at htpm
    obtain ⟨ho, hv⟩ := htp tp htpm
    refine ⟨ho.mono p tp, ?_⟩
    intro j hjm
    rw [jobsList_stable p tp ho] at hjm
    exact p.validVal j (hv j hjm)
  obtain ⟨heq2, hids2⟩ := populate_ids (popTp h w).1 tree w htree hctd'
    hcp' hfp' htp'
  refine ⟨(popTp h w).1, _, (popTp (popTp h w).1 w).1, _, heq1, heq2, ?_⟩
  rw [hids1, hids2]
  exact (idSeq_stable p w hvw hcpA hfpA htpA hcp hfp htp).symm

/-- Witness for C9: two successive population runs over the
demonstration workflow yield the same id sequence. -/
theorem populate_deterministic_witness :
    ∃ h1 ops1 h2 ops2,
      populateTreeFromGraphQLData exHeap (.ref 9) (.ref 8) = .ok (h1, ops1) ∧
      populateTreeFromGraphQLData h1 (.ref 9) (.ref 8) = .ok (h2, ops2) ∧
      ops1.map (fun op => h1.getField op.node "id") =
        ops2.map (fun op => h2.getField op.node "id") := by
  refine populate_deterministic exHeap (.ref 9) (.ref 8) (by decide)
    (by decide) ?_ ?_ ?_
  · intro c hc
    have hlist : exHeap.elems (exHeap.getField (.ref 8) "cyclePoints")
        = [.ref 0] := by decide
    rw [hlist] at hc
    have hc0 : c = .ref 0 := List.mem_singleton.mp hc
    subst hc0
    exact ValidVal.of_lookup exHeap 0 (.record [("cyclePoint", .str "2024")]) (by decide)
  · intro f hfm
    have hlist : exHeap.elems (exHeap.getField (.ref 8) "familyProxies")
        = [.ref 2] := by decide
    rw [hlist] at hfm
    have hf2 : f = .ref 2 := List.mem_singleton.mp hfm
    subst hf2
    exact ValidVal.of_lookup exHeap 2 (.record [("id", .str "f1")]) (by decide)
  · intro tp htpm
    have hlist : exHeap.elems (exHeap.getField (.ref 8) "taskProxies")
        = [.ref 6] := by decide
    rw [hlist] at htpm
    have ht6 : tp = .ref 6 := List.mem_singleton.mp htpm
    subst ht6
    refine ⟨⟨⟨6, [("id", .str "t1"), ("latestMessage", .str "hello"),
      ("jobs", .ref 5)], rfl, by decide⟩, fun _ => by decide⟩, ?_⟩
    intro j hjm
    have hjl : jobsList exHeap (.ref 6) = [.ref 4] := by decide
    rw [hjl] at hjm
    have hj4 : j = .ref 4 := List.mem_singleton.mp hjm
    subst hj4
    exact ValidVal.of_lookup exHeap 4 (.record [("id", .str "j1")]) (by decide)
